import Mathlib

/-! The `gasp` table of OTS: parsing and serialisation.

A shallow embedding of `src/gasp.cc` (`OpenTypeGASP::Parse`,
`OpenTypeGASP::Serialize`) together with the properties the specification
states about them.

Conventions of the embedding:

* `uint16_t` and `unsigned` values are natural numbers; every value read from
  the input is below `2^16` by construction, and the one subtraction the source
  performs on unsigned values (`num_ranges - 1u`) wraps modulo `2^32`;
* the object `this` is passed in and returned explicitly, so the state left
  behind by a rejected parse is visible;
* `std::vector::operator[]` with an index out of range is undefined behaviour
  in C++; the embedding makes it the explicit outcome `Outcome.outOfBounds`;
* `Warning(...)` only logs: it changes neither the object nor the control
  flow, and is kept as a comment at the place where the source calls it.
-/

namespace ots

/-- One octet of input or output. -/
abbrev Byte := Fin 256

/-- Modelled from the spec: the class `Buffer` (declared in `ots.h`, absent from
the sources at hand) is the Reader of §4.1, a byte span with a cursor. -/
structure Buffer where
  buffer : List Byte
  offset : Nat
deriving DecidableEq

/-- Modelled from the spec: `Buffer::ReadU16` (§4.1) fails when fewer than two
bytes remain, and otherwise yields the big-endian 16-bit value under the cursor
and advances the cursor by two. -/
def Buffer.ReadU16 (b : Buffer) : Option (Nat × Buffer) :=
  if b.offset + 2 > b.buffer.length then none
  else
    some ((b.buffer.getD b.offset 0).val * 256 + (b.buffer.getD (b.offset + 1) 0).val,
      { b with offset := b.offset + 2 })

/-- Modelled from the spec: the outcome of an operation on the table (§7).
`Error` and `Drop` carry the format string and the arguments the source passes
to them. `outOfBounds` stands for an out-of-range vector access. -/
inductive Outcome where
  | success
  | Drop (format : String) (args : List Nat)
  | Error (format : String) (args : List Nat)
  | outOfBounds
deriving DecidableEq

/-- The fields of `class OpenTypeGASP`: `version` and the vector `gasp_ranges`
of pairs `(max_ppem, behavior)`. -/
structure OpenTypeGASP where
  version : Nat
  gasp_ranges : List (Nat × Nat)
deriving DecidableEq

/-- Modelled from the spec: a newly constructed object (the constructor is in
`gasp.h`, absent here) has an empty vector; the field `version` is given no
value before `Parse` reads it, so it is a parameter. -/
def OpenTypeGASP.fresh (version : Nat) : OpenTypeGASP :=
  { version := version, gasp_ranges := [] }

/-- The loop `for (unsigned i = 0; i < num_ranges; ++i)` of
`OpenTypeGASP::Parse` (gasp.cc lines 31-61). The first numeric argument counts
the iterations still to run, `num_ranges - i`; the second is `i`. -/
def OpenTypeGASP.ParseLoop (num_ranges : Nat) :
    Nat → Nat → Buffer → OpenTypeGASP → Outcome × OpenTypeGASP
  | 0, _, _, self => (Outcome.success, self)
  | todo + 1, i, table, self =>
    match table.ReadU16 with
    | none => (Outcome.Error "Failed to read subrange %d" [i], self)
    | some (max_ppem, table) =>
      match table.ReadU16 with
      | none => (Outcome.Error "Failed to read subrange %d" [i], self)
      | some (behavior, table) =>
        if i > 0 ∧ self.gasp_ranges[i - 1]? = none then
          (Outcome.outOfBounds, self)
        else if i > 0 ∧ (self.gasp_ranges.getD (i - 1) (0, 0)).1 ≥ max_ppem then
          -- The records in the gaspRange[] array must be sorted in order of
          -- increasing rangeMaxPPEM value.
          (Outcome.Drop "ranges are not sorted" [], self)
        else if i = (num_ranges + 4294967296 - 1) % 4294967296 ∧ max_ppem ≠ 0xffff then
          (Outcome.Drop
            "The last record should be 0xFFFF as a sentinel value for rangeMaxPPEM" [], self)
        else
          -- Warning("undefined bits are used: %x", behavior); mask undefined bits.
          let behavior := if behavior >>> 8 ≠ 0 then behavior &&& 0x000f else behavior
          -- Warning("changed the version number to 1");
          let version := if self.version = 0 ∧ behavior >>> 2 ≠ 0 then 1 else self.version
          OpenTypeGASP.ParseLoop num_ranges todo (i + 1) table
            { version := version, gasp_ranges := self.gasp_ranges ++ [(max_ppem, behavior)] }

/-- `OpenTypeGASP::Parse` (gasp.cc lines 12-64): the outcome together with the
object as the call leaves it. -/
def OpenTypeGASP.Parse (self : OpenTypeGASP) (data : List Byte) : Outcome × OpenTypeGASP :=
  let table : Buffer := { buffer := data, offset := 0 }
  match table.ReadU16 with
  | none => (Outcome.Error "Failed to read table header" [], self)
  | some (version, table) =>
    let self := { self with version := version }
    match table.ReadU16 with
    | none => (Outcome.Error "Failed to read table header" [], self)
    | some (num_ranges, table) =>
      if self.version > 1 then
        -- Lots of Linux fonts have bad version numbers...
        (Outcome.Drop "bad version: %u" [self.version], self)
      else if num_ranges = 0 then
        (Outcome.Drop "num_ranges is zero" [], self)
      else
        -- this->gasp_ranges.reserve(num_ranges) changes the capacity only.
        OpenTypeGASP.ParseLoop num_ranges num_ranges 0 table self

/-- Modelled from the spec: the abstract class `OTSStream` (declared in
`opentype-sanitiser.h`, absent here) is the Writer of §4.2: a sink with some
state `σ` whose `WriteU16` reports whether the write was accepted and leaves
a new state. -/
structure OTSStream (σ : Type) where
  WriteU16 : σ → Nat → Bool × σ

/-- The loop `for (uint16_t i = 0; i < num_ranges; ++i)` of
`OpenTypeGASP::Serialize` (gasp.cc lines 74-79). The first numeric argument
counts the iterations still to run, `num_ranges - i`; the second is `i`, which
stays below `num_ranges ≤ 65535` and so never wraps. -/
def OpenTypeGASP.SerializeLoop {σ : Type} (self : OpenTypeGASP) (stream : OTSStream σ) :
    Nat → Nat → σ → Outcome × σ
  | 0, _, out => (Outcome.success, out)
  | todo + 1, i, out =>
    match self.gasp_ranges[i]? with
    | none => (Outcome.outOfBounds, out)
    | some range =>
      match stream.WriteU16 out range.1 with
      | (false, out) => (Outcome.Error "Failed to write gasp subtable %d" [i], out)
      | (true, out) =>
        match stream.WriteU16 out range.2 with
        | (false, out) => (Outcome.Error "Failed to write gasp subtable %d" [i], out)
        | (true, out) => OpenTypeGASP.SerializeLoop self stream todo (i + 1) out

/-- `OpenTypeGASP::Serialize` (gasp.cc lines 66-82): the outcome together with
the state of the stream as the call leaves it. -/
def OpenTypeGASP.Serialize {σ : Type} (self : OpenTypeGASP) (stream : OTSStream σ) (out : σ) :
    Outcome × σ :=
  let num_ranges := self.gasp_ranges.length % 65536
  if num_ranges ≠ self.gasp_ranges.length then
    (Outcome.Error "failed to write gasp header" [], out)
  else
    match stream.WriteU16 out self.version with
    | (false, out) => (Outcome.Error "failed to write gasp header" [], out)
    | (true, out) =>
      match stream.WriteU16 out num_ranges with
      | (false, out) => (Outcome.Error "failed to write gasp header" [], out)
      | (true, out) => OpenTypeGASP.SerializeLoop self stream num_ranges 0 out

/-- Modelled from the spec: a Writer (§4.2) that accepts every write, an
unbounded memory stream. Its state is the sequence of bytes written so far;
`WriteU16` appends the two bytes of the value, most significant first. -/
def MemoryStream : OTSStream (List Byte) where
  WriteU16 out v :=
    (true, out ++ [⟨v / 256 % 256, Nat.mod_lt _ (by decide)⟩, ⟨v % 256, Nat.mod_lt _ (by decide)⟩])

/-! ## Vocabulary of the specification -/

/-- The big-endian 16-bit value at byte offset `off` of `data` (§6). -/
def u16At (data : List Byte) (off : Nat) : Nat :=
  (data.getD off 0).val * 256 + (data.getD (off + 1) 0).val

/-- Header field `version`, at offset 0 (§6). -/
def headerVersion (data : List Byte) : Nat := u16At data 0

/-- Header field `numRanges`, at offset 2 (§6). -/
def headerNumRanges (data : List Byte) : Nat := u16At data 2

/-- Field `thresholdPpem[i]`, at offset `4 + 4·i` (§6). -/
def thresholdAt (data : List Byte) (i : Nat) : Nat := u16At data (4 + 4 * i)

/-- Field `behaviorFlags[i]`, at offset `6 + 4·i` (§6). -/
def behaviorAt (data : List Byte) (i : Nat) : Nat := u16At data (6 + 4 * i)

/-- Bit 2 or bit 3 of a flags value is set. -/
def usesSymmetricBits (flags : Nat) : Prop :=
  flags.testBit 2 = true ∨ flags.testBit 3 = true

instance (flags : Nat) : Decidable (usesSymmetricBits flags) := by
  unfold usesSymmetricBits; infer_instance

/-- Adjacent ranges have strictly increasing `thresholdPpem` (§3). -/
def StrictlyIncreasing (ranges : List (Nat × Nat)) : Prop :=
  ∀ i a b, ranges[i]? = some a → ranges[i + 1]? = some b → a.1 < b.1

/-- The last range has `thresholdPpem = 0xFFFF` (§3). -/
def EndsWithSentinel (ranges : List (Nat × Nat)) : Prop :=
  ranges.getLast?.map Prod.fst = some 0xFFFF

/-- The invariants of §3 on a table. -/
structure Valid (t : OpenTypeGASP) : Prop where
  version_le : t.version = 0 ∨ t.version = 1
  nonempty : t.gasp_ranges ≠ []
  increasing : StrictlyIncreasing t.gasp_ranges
  sentinel : EndsWithSentinel t.gasp_ranges
  flags_lt : ∀ r ∈ t.gasp_ranges, r.2 < 16
  version_zero : t.version = 0 → ∀ r ∈ t.gasp_ranges, ¬ usesSymmetricBits r.2

/-- The outcome is a `Drop`, whatever its message. -/
def Outcome.isDrop : Outcome → Prop
  | Outcome.Drop _ _ => True
  | _ => False

instance (o : Outcome) : Decidable o.isDrop := by
  cases o <;> unfold Outcome.isDrop <;> infer_instance

/-- The outcome is an `Error`, whatever its message. -/
def Outcome.isError : Outcome → Prop
  | Outcome.Error _ _ => True
  | _ => False

instance (o : Outcome) : Decidable o.isError := by
  cases o <;> unfold Outcome.isError <;> infer_instance

/-! ## The binary layout of §6 -/

/-- The two bytes of a 16-bit value, most significant first. -/
def be16 (v : Nat) : List Byte :=
  [⟨v / 256 % 256, Nat.mod_lt _ (by decide)⟩, ⟨v % 256, Nat.mod_lt _ (by decide)⟩]

/-- The ranges laid out as in §6: for each range in order its threshold, then
its flags. -/
def layoutRanges : List (Nat × Nat) → List Byte
  | [] => []
  | r :: rs => be16 r.1 ++ be16 r.2 ++ layoutRanges rs

/-- The table laid out as in §6: version, number of ranges, then the ranges. -/
def layoutTable (t : OpenTypeGASP) : List Byte :=
  be16 t.version ++ be16 t.gasp_ranges.length ++ layoutRanges t.gasp_ranges

/-- A table of `n` ranges with thresholds 0, 1, ..., `n - 1`, flags 0 and
version 0. -/
def consecutiveTable (n : Nat) : OpenTypeGASP :=
  { version := 0, gasp_ranges := (List.range n).map (fun i => (i, 0)) }

/-- A table of two ranges under version 1, every flag bit of version 1 set
in the last range. -/
def twoRangeTable : OpenTypeGASP :=
  { version := 1, gasp_ranges := [(10, 1), (0xFFFF, 15)] }

/-! ## The state of the loop in closed form -/

/-- The flags value the loop stores for the input flags `behavior`
(gasp.cc lines 49-53). -/
def storedBehavior (behavior : Nat) : Nat :=
  if behavior >>> 8 ≠ 0 then behavior &&& 0x000f else behavior

/-- The version the loop leaves after storing the flags `behavior`
(gasp.cc lines 55-58). -/
def nextVersion (version behavior : Nat) : Nat :=
  if version = 0 ∧ behavior >>> 2 ≠ 0 then 1 else version

/-- The object after `i` iterations of the loop that all reached the
`push_back`, started from a fresh object whose version is `version`. -/
def stateAfter (version : Nat) (data : List Byte) : Nat → OpenTypeGASP
  | 0 => { version := version, gasp_ranges := [] }
  | i + 1 =>
    { version := nextVersion (stateAfter version data i).version
        (storedBehavior (behaviorAt data i)),
      gasp_ranges := (stateAfter version data i).gasp_ranges ++
        [(thresholdAt data i, storedBehavior (behaviorAt data i))] }

/-- Both fields of range `i` lie inside the input. -/
def Readable (data : List Byte) (i : Nat) : Prop := 4 + 4 * i + 4 ≤ data.length

instance (data : List Byte) (i : Nat) : Decidable (Readable data i) := by
  unfold Readable; infer_instance

/-- Range `i` passes the ordering check of gasp.cc line 38. -/
def Ordered (data : List Byte) (i : Nat) : Prop :=
  0 < i → thresholdAt data (i - 1) < thresholdAt data i

instance (data : List Byte) (i : Nat) : Decidable (Ordered data i) := by
  unfold Ordered; infer_instance

/-- Range `i` passes the sentinel check of gasp.cc lines 43-44. -/
def SentinelOk (data : List Byte) (num_ranges i : Nat) : Prop :=
  i + 1 = num_ranges → thresholdAt data i = 0xFFFF

instance (data : List Byte) (n i : Nat) : Decidable (SentinelOk data n i) := by
  unfold SentinelOk; infer_instance

/-- Range `i` passes every check of one iteration. -/
def Passes (data : List Byte) (num_ranges i : Nat) : Prop :=
  Readable data i ∧ Ordered data i ∧ SentinelOk data num_ranges i

instance (data : List Byte) (n i : Nat) : Decidable (Passes data n i) := by
  unfold Passes; infer_instance

/-- What the loop returns when iteration `i` is the first not to pass. -/
def rejection (data : List Byte) (i : Nat) : Outcome :=
  if ¬ Readable data i then Outcome.Error "Failed to read subrange %d" [i]
  else if ¬ Ordered data i then Outcome.Drop "ranges are not sorted" []
  else Outcome.Drop "The last record should be 0xFFFF as a sentinel value for rangeMaxPPEM" []


/-! ## Observing the calls made on a writer -/

/-- A writer that passes every call on to `stream` and keeps, next to the state
of `stream`, the list of the calls of `WriteU16` made so far: the value
written and whether the write was accepted. -/
def recording {σ : Type} (stream : OTSStream σ) : OTSStream (σ × List (Nat × Bool)) where
  WriteU16 out v :=
    ((stream.WriteU16 out.1 v).1,
      ((stream.WriteU16 out.1 v).2, out.2 ++ [(v, (stream.WriteU16 out.1 v).1)]))

/-- The calls `calls` made during an operation that ended with `outcome`
follow the rule of §4.2: either the operation succeeded after `expected`
calls that were all accepted, or it ended in Error and the one rejected call
is the last call made. -/
def AbortsAtFirstFailure (outcome : Outcome) (calls : List (Nat × Bool)) (expected : Nat) :
    Prop :=
  (outcome = Outcome.success ∧ calls.length = expected ∧ ∀ c ∈ calls, c.2 = true) ∨
    (outcome.isError ∧ ∃ before v, calls = before ++ [(v, false)] ∧ ∀ c ∈ before, c.2 = true)

/-- A writer that accepts `capacity` calls of `WriteU16` and rejects every
call after them; its state is the number of calls accepted so far. -/
def LimitedStream (capacity : Nat) : OTSStream Nat where
  WriteU16 out _ := if out < capacity then (true, out + 1) else (false, out)

/-! ## The hooks of the font (gasp.cc lines 83-103) -/

/-- Modelled from the spec: the part of `struct Font` (declared in `ots.h`,
absent here) that gasp.cc uses. The pointer `gasp` is `none` when null and
`some a` when it holds the address `a`; `gasp_reused` is the flag of §3. -/
structure Font where
  gasp : Option Nat
  gasp_reused : Bool
deriving DecidableEq

/-- The free store: the cell at address `a` is `some t` while the object
allocated there is alive with value `t`, and `none` once it has been deleted. -/
abbrev Heap := List (Option OpenTypeGASP)

/-- The table reached through the pointer of `font`, if the pointer is not null
and the object it points to is alive. -/
def tableOf (heap : Heap) (font : Font) : Option OpenTypeGASP :=
  match font.gasp with
  | none => none
  | some a => heap.getD a none

/-- `ots_gasp_should_serialise` (gasp.cc lines 88-90). -/
def ots_gasp_should_serialise (font : Font) : Bool :=
  font.gasp.isSome

/-- `ots_gasp_serialise` (gasp.cc lines 92-94). The result is `none` when the
pointer is null or the object it points to has been deleted, which is undefined
behaviour in C++. -/
def ots_gasp_serialise {σ : Type} (stream : OTSStream σ) (out : σ) (heap : Heap) (font : Font) :
    Option (Outcome × σ) :=
  match tableOf heap font with
  | none => none
  | some table => some (table.Serialize stream out)

/-- `ots_gasp_reuse` (gasp.cc lines 96-99). -/
def ots_gasp_reuse (font other : Font) : Font :=
  { font with gasp := other.gasp, gasp_reused := true }

/-- `ots_gasp_free` (gasp.cc lines 101-103): `delete font->gasp`. Deleting a
null pointer has no effect; deleting a live object empties its cell; the
result is `none` when the pointer is neither, which is undefined behaviour in
C++. The pointer itself is left as it is. -/
def ots_gasp_free (heap : Heap) (font : Font) : Option Heap :=
  match font.gasp with
  | none => some heap
  | some a =>
    match heap.getD a none with
    | none => none
    | some _ => some (heap.set a none)

/-! ## Tables that a second pass leaves alone -/

/-- The conditions under which `Parse` applies no correction to the bytes that
`Serialize` writes for a table: the invariants of §3 that `Parse` enforces,
a number of ranges that fits in 16 bits, flags that the masking step leaves as
they are, and, under version 0, flags that do not trigger the upgrade. -/
structure Settled (t : OpenTypeGASP) : Prop where
  version_le : t.version ≤ 1
  nonempty : t.gasp_ranges ≠ []
  length_le : t.gasp_ranges.length ≤ 65535
  increasing : StrictlyIncreasing t.gasp_ranges
  sentinel : EndsWithSentinel t.gasp_ranges
  flags_fixed : ∀ r ∈ t.gasp_ranges, r.2 < 65536 ∧ storedBehavior r.2 = r.2
  version_fixed : t.version = 0 → ∀ r ∈ t.gasp_ranges, r.2 >>> 2 = 0

/-! ## The iterations of the parsing loop, one by one -/

/-- How one run of the body of the loop ends: by leaving `Parse` with an
outcome, or by going on to the next iteration with the buffer and the object
as the body leaves them. -/
inductive Step where
  | leave (outcome : Outcome)
  | next (table : Buffer) (self : OpenTypeGASP)
deriving DecidableEq

/-- The body of the loop of `OpenTypeGASP::Parse` (gasp.cc lines 32-60) at
index `i`, the same statements as in `OpenTypeGASP.ParseLoop`. -/
def OpenTypeGASP.ParseBody (num_ranges i : Nat) (table : Buffer) (self : OpenTypeGASP) : Step :=
  match table.ReadU16 with
  | none => Step.leave (Outcome.Error "Failed to read subrange %d" [i])
  | some (max_ppem, table) =>
    match table.ReadU16 with
    | none => Step.leave (Outcome.Error "Failed to read subrange %d" [i])
    | some (behavior, table) =>
      if i > 0 ∧ self.gasp_ranges[i - 1]? = none then
        Step.leave Outcome.outOfBounds
      else if i > 0 ∧ (self.gasp_ranges.getD (i - 1) (0, 0)).1 ≥ max_ppem then
        Step.leave (Outcome.Drop "ranges are not sorted" [])
      else if i = (num_ranges + 4294967296 - 1) % 4294967296 ∧ max_ppem ≠ 0xffff then
        Step.leave (Outcome.Drop
          "The last record should be 0xFFFF as a sentinel value for rangeMaxPPEM" [])
      else
        let behavior := if behavior >>> 8 ≠ 0 then behavior &&& 0x000f else behavior
        let version := if self.version = 0 ∧ behavior >>> 2 ≠ 0 then 1 else self.version
        Step.next table
          { version := version, gasp_ranges := self.gasp_ranges ++ [(max_ppem, behavior)] }

/-- The variables of the loop at the start of an iteration. -/
structure LoopState where
  num_ranges : Nat
  i : Nat
  self : OpenTypeGASP
deriving DecidableEq

/-- The variables of the loop at the start of every iteration that a run of
the loop begins, in order. The numeric arguments are those of
`OpenTypeGASP.ParseLoop`. -/
def OpenTypeGASP.ParseLoopStarts (num_ranges : Nat) :
    Nat → Nat → Buffer → OpenTypeGASP → List LoopState
  | 0, _, _, _ => []
  | todo + 1, i, table, self =>
    { num_ranges := num_ranges, i := i, self := self } ::
      match OpenTypeGASP.ParseBody num_ranges i table self with
      | Step.leave _ => []
      | Step.next table self => OpenTypeGASP.ParseLoopStarts num_ranges todo (i + 1) table self

/-- The variables of the loop at the start of every iteration that a run of
`OpenTypeGASP::Parse` begins: none when the header is rejected. -/
def OpenTypeGASP.ParseStarts (self : OpenTypeGASP) (data : List Byte) : List LoopState :=
  let table : Buffer := { buffer := data, offset := 0 }
  match table.ReadU16 with
  | none => []
  | some (version, table) =>
    let self := { self with version := version }
    match table.ReadU16 with
    | none => []
    | some (num_ranges, table) =>
      if self.version > 1 then []
      else if num_ranges = 0 then []
      else OpenTypeGASP.ParseLoopStarts num_ranges num_ranges 0 table self

/-! ## Reading -/

theorem u16At_lt (data : List Byte) (off : Nat) : u16At data off < 65536 := by
  unfold u16At
  have h1 := (data.getD off 0).isLt
  have h2 := (data.getD (off + 1) 0).isLt
  omega

theorem ReadU16_of_le (data : List Byte) (off : Nat) (h : off + 2 ≤ data.length) :
    Buffer.ReadU16 ⟨data, off⟩ = some (u16At data off, ⟨data, off + 2⟩) := by
  simp [Buffer.ReadU16, u16At, Nat.not_lt.mpr h]

theorem ReadU16_of_lt (data : List Byte) (off : Nat) (h : data.length < off + 2) :
    Buffer.ReadU16 ⟨data, off⟩ = none := by
  simp [Buffer.ReadU16, h]

/-! ## One iteration of the parsing loop -/

theorem stateAfter_length (v : Nat) (data : List Byte) (i : Nat) :
    (stateAfter v data i).gasp_ranges.length = i := by
  induction i with
  | zero => rfl
  | succ i ih => simp [stateAfter, ih]

theorem stateAfter_getElem? (v : Nat) (data : List Byte) (i j : Nat) (h : j < i) :
    (stateAfter v data i).gasp_ranges[j]? =
      some (thresholdAt data j, storedBehavior (behaviorAt data j)) := by
  induction i with
  | zero => omega
  | succ i ih =>
    simp only [stateAfter]
    by_cases hj : j < i
    · rw [List.getElem?_append_left (by rw [stateAfter_length]; exact hj)]
      exact ih hj
    · have : j = i := by omega
      subst this
      rw [List.getElem?_append_right (by rw [stateAfter_length])]
      simp [stateAfter_length]

theorem ParseLoop_unreadable (n todo i : Nat) (data : List Byte) (self : OpenTypeGASP)
    (h : ¬ Readable data i) :
    OpenTypeGASP.ParseLoop n (todo + 1) i ⟨data, 4 + 4 * i⟩ self =
      (Outcome.Error "Failed to read subrange %d" [i], self) := by
  unfold Readable at h
  unfold OpenTypeGASP.ParseLoop
  by_cases h2 : 4 + 4 * i + 2 ≤ data.length
  · rw [ReadU16_of_le _ _ h2]
    simp only
    rw [ReadU16_of_lt _ _ (by omega)]
  · rw [ReadU16_of_lt _ _ (by omega)]

theorem ParseLoop_readable (n todo i : Nat) (data : List Byte) (self : OpenTypeGASP)
    (h : Readable data i) :
    OpenTypeGASP.ParseLoop n (todo + 1) i ⟨data, 4 + 4 * i⟩ self =
      if i > 0 ∧ self.gasp_ranges[i - 1]? = none then
        (Outcome.outOfBounds, self)
      else if i > 0 ∧ (self.gasp_ranges.getD (i - 1) (0, 0)).1 ≥ thresholdAt data i then
        (Outcome.Drop "ranges are not sorted" [], self)
      else if i = (n + 4294967296 - 1) % 4294967296 ∧ thresholdAt data i ≠ 0xffff then
        (Outcome.Drop
          "The last record should be 0xFFFF as a sentinel value for rangeMaxPPEM" [], self)
      else
        OpenTypeGASP.ParseLoop n todo (i + 1) ⟨data, 4 + 4 * (i + 1)⟩
          { version := nextVersion self.version (storedBehavior (behaviorAt data i)),
            gasp_ranges := self.gasp_ranges ++
              [(thresholdAt data i, storedBehavior (behaviorAt data i))] } := by
  unfold Readable at h
  rw [OpenTypeGASP.ParseLoop]
  rw [ReadU16_of_le _ _ (by omega)]
  simp only
  rw [ReadU16_of_le _ _ (by omega)]
  simp only [thresholdAt, behaviorAt, storedBehavior, nextVersion]
  have e1 : 4 + 4 * i + 2 = 6 + 4 * i := by omega
  have e2 : 4 + 4 * i + 2 + 2 = 4 + 4 * (i + 1) := by omega
  rw [e1]
  rw [show 6 + 4 * i + 2 = 4 + 4 * (i + 1) by omega]

theorem ParseLoop_pass (n todo i v : Nat) (data : List Byte) (hn : i < n)
    (hn32 : n < 4294967296) (h : Passes data n i) :
    OpenTypeGASP.ParseLoop n (todo + 1) i ⟨data, 4 + 4 * i⟩ (stateAfter v data i) =
      OpenTypeGASP.ParseLoop n todo (i + 1) ⟨data, 4 + 4 * (i + 1)⟩
        (stateAfter v data (i + 1)) := by
  obtain ⟨hr, ho, hs⟩ := h
  rw [ParseLoop_readable n todo i data _ hr]
  have h1 : ¬ (i > 0 ∧ (stateAfter v data i).gasp_ranges[i - 1]? = none) := by
    rintro ⟨hi, hnone⟩
    rw [stateAfter_getElem? v data i (i - 1) (by omega)] at hnone
    exact absurd hnone (by simp)
  have h2 : ¬ (i > 0 ∧
      ((stateAfter v data i).gasp_ranges.getD (i - 1) (0, 0)).1 ≥ thresholdAt data i) := by
    rintro ⟨hi, hge⟩
    rw [List.getD_eq_getElem?_getD, stateAfter_getElem? v data i (i - 1) (by omega)] at hge
    have := ho hi
    simp only [Option.getD_some] at hge
    omega
  have h3 : ¬ (i = (n + 4294967296 - 1) % 4294967296 ∧ thresholdAt data i ≠ 0xffff) := by
    rintro ⟨hi, hne⟩
    apply hne
    apply hs
    omega
  rw [if_neg h1, if_neg h2, if_neg h3]
  rfl

theorem ParseLoop_fail (n todo i v : Nat) (data : List Byte)
    (hn32 : n < 4294967296) (h : ¬ Passes data n i) :
    OpenTypeGASP.ParseLoop n (todo + 1) i ⟨data, 4 + 4 * i⟩ (stateAfter v data i) =
      (rejection data i, stateAfter v data i) := by
  by_cases hr : Readable data i
  · rw [ParseLoop_readable n todo i data _ hr]
    have h1 : ¬ (i > 0 ∧ (stateAfter v data i).gasp_ranges[i - 1]? = none) := by
      rintro ⟨hi, hnone⟩
      rw [stateAfter_getElem? v data i (i - 1) (by omega)] at hnone
      exact absurd hnone (by simp)
    rw [if_neg h1]
    by_cases ho : Ordered data i
    · have h2 : ¬ (i > 0 ∧
          ((stateAfter v data i).gasp_ranges.getD (i - 1) (0, 0)).1 ≥ thresholdAt data i) := by
        rintro ⟨hi, hge⟩
        rw [List.getD_eq_getElem?_getD, stateAfter_getElem? v data i (i - 1) (by omega)] at hge
        have := ho hi
        simp only [Option.getD_some] at hge
        omega
      have hs : ¬ SentinelOk data n i := fun hs => h ⟨hr, ho, hs⟩
      have h3 : i = (n + 4294967296 - 1) % 4294967296 ∧ thresholdAt data i ≠ 0xffff := by
        unfold SentinelOk at hs
        push_neg at hs
        refine ⟨?_, hs.2⟩
        have := hs.1
        omega
      rw [if_neg h2, if_pos h3]
      simp [rejection, hr, ho]
    · have h2 : i > 0 ∧
          ((stateAfter v data i).gasp_ranges.getD (i - 1) (0, 0)).1 ≥ thresholdAt data i := by
        unfold Ordered at ho
        push_neg at ho
        refine ⟨ho.1, ?_⟩
        rw [List.getD_eq_getElem?_getD, stateAfter_getElem? v data i (i - 1) (by omega)]
        simpa using ho.2
      rw [if_pos h2]
      simp [rejection, hr, ho]
  · rw [ParseLoop_unreadable n todo i data _ hr]
    simp [rejection, hr]

/-! ## The whole loop -/

theorem ParseLoop_all_pass (n v : Nat) (data : List Byte) (hn32 : n < 4294967296) :
    ∀ todo i, i + todo = n → (∀ j, i ≤ j → j < n → Passes data n j) →
      OpenTypeGASP.ParseLoop n todo i ⟨data, 4 + 4 * i⟩ (stateAfter v data i) =
        (Outcome.success, stateAfter v data n) := by
  intro todo
  induction todo with
  | zero =>
    intro i hi _
    have : i = n := by omega
    subst this
    rfl
  | succ todo ih =>
    intro i hi hall
    rw [ParseLoop_pass n todo i v data (by omega) hn32 (hall i (Nat.le_refl i) (by omega))]
    exact ih (i + 1) (by omega) (fun j hj hjn => hall j (by omega) hjn)

theorem ParseLoop_first_fail (n v j : Nat) (data : List Byte) (hn32 : n < 4294967296)
    (hj : j < n) (hfail : ¬ Passes data n j) :
    ∀ todo i, i + todo = n → i ≤ j → (∀ k, i ≤ k → k < j → Passes data n k) →
      OpenTypeGASP.ParseLoop n todo i ⟨data, 4 + 4 * i⟩ (stateAfter v data i) =
        (rejection data j, stateAfter v data j) := by
  intro todo
  induction todo with
  | zero => intro i hi hij _; omega
  | succ todo ih =>
    intro i hi hij hall
    by_cases heq : i = j
    · subst heq
      exact ParseLoop_fail n todo i v data hn32 hfail
    · rw [ParseLoop_pass n todo i v data (by omega) hn32 (hall i (Nat.le_refl i) (by omega))]
      exact ih (i + 1) (by omega) (by omega) (fun k hk hkj => hall k (by omega) hkj)

/-! ## The whole of `Parse` -/

theorem Parse_short (self : OpenTypeGASP) (data : List Byte) (h : data.length < 4) :
    (self.Parse data).1 = Outcome.Error "Failed to read table header" [] := by
  unfold OpenTypeGASP.Parse
  by_cases h2 : 0 + 2 ≤ data.length
  · simp only
    rw [ReadU16_of_le _ _ h2]
    simp only
    rw [ReadU16_of_lt _ _ (by omega)]
  · simp only
    rw [ReadU16_of_lt _ _ (by omega)]

theorem Parse_header (v0 : Nat) (data : List Byte) (h : 4 ≤ data.length) :
    (OpenTypeGASP.fresh v0).Parse data =
      if headerVersion data > 1 then
        (Outcome.Drop "bad version: %u" [headerVersion data], stateAfter (headerVersion data) data 0)
      else if headerNumRanges data = 0 then
        (Outcome.Drop "num_ranges is zero" [], stateAfter (headerVersion data) data 0)
      else
        OpenTypeGASP.ParseLoop (headerNumRanges data) (headerNumRanges data) 0 ⟨data, 4 + 4 * 0⟩
          (stateAfter (headerVersion data) data 0) := by
  unfold OpenTypeGASP.Parse
  simp only
  rw [ReadU16_of_le _ _ (by omega)]
  simp only
  rw [ReadU16_of_le _ _ (by omega)]
  rfl

theorem Parse_accept (v0 : Nat) (data : List Byte) (h : 4 ≤ data.length)
    (hv : headerVersion data ≤ 1) (hn : 1 ≤ headerNumRanges data)
    (hall : ∀ j, j < headerNumRanges data → Passes data (headerNumRanges data) j) :
    (OpenTypeGASP.fresh v0).Parse data =
      (Outcome.success, stateAfter (headerVersion data) data (headerNumRanges data)) := by
  rw [Parse_header v0 data h, if_neg (by omega), if_neg (by omega)]
  have hlt := u16At_lt data 2
  exact ParseLoop_all_pass _ _ data (by unfold headerNumRanges; omega) _ 0 (by omega)
    (fun j _ hj => hall j hj)

theorem Parse_reject (v0 j : Nat) (data : List Byte) (h : 4 ≤ data.length)
    (hv : headerVersion data ≤ 1) (hj : j < headerNumRanges data)
    (hall : ∀ k, k < j → Passes data (headerNumRanges data) k)
    (hfail : ¬ Passes data (headerNumRanges data) j) :
    (OpenTypeGASP.fresh v0).Parse data =
      (rejection data j, stateAfter (headerVersion data) data j) := by
  rw [Parse_header v0 data h, if_neg (by omega), if_neg (by omega)]
  have hlt := u16At_lt data 2
  exact ParseLoop_first_fail _ _ j data (by unfold headerNumRanges; omega) hj hfail _ 0
    (by omega) (by omega) (fun k _ hk => hall k hk)

/-- Either every range passes, or there is a first one that does not. -/
theorem all_pass_or_first_fail (data : List Byte) (n : Nat) :
    (∀ j, j < n → Passes data n j) ∨
      ∃ j, j < n ∧ ¬ Passes data n j ∧ ∀ k, k < j → Passes data n k := by
  by_cases hall : ∀ j, j < n → Passes data n j
  · exact Or.inl hall
  · right
    push_neg at hall
    have hex : ∃ j, j < n ∧ ¬ Passes data n j := hall
    refine ⟨Nat.find hex, (Nat.find_spec hex).1, (Nat.find_spec hex).2, ?_⟩
    intro k hk
    by_contra hc
    exact Nat.find_min hex hk ⟨lt_trans hk (Nat.find_spec hex).1, hc⟩

theorem rejection_ne_success (data : List Byte) (j : Nat) :
    rejection data j ≠ Outcome.success := by
  unfold rejection
  split_ifs <;> simp

theorem rejection_isDrop (data : List Byte) (j : Nat) (h : Readable data j) :
    (rejection data j).isDrop := by
  unfold rejection
  rw [if_neg (not_not.mpr h)]
  split_ifs <;> exact trivial

theorem rejection_isError (data : List Byte) (j : Nat) (h : ¬ Readable data j) :
    rejection data j = Outcome.Error "Failed to read subrange %d" [j] := by
  unfold rejection
  rw [if_pos h]

/-- A successful parse of a fresh object: the header is acceptable, every
range passes, and the object left is the closed form. -/
theorem Parse_success_inv (v0 : Nat) (data : List Byte)
    (h : ((OpenTypeGASP.fresh v0).Parse data).1 = Outcome.success) :
    4 ≤ data.length ∧ headerVersion data ≤ 1 ∧ 1 ≤ headerNumRanges data ∧
      (∀ j, j < headerNumRanges data → Passes data (headerNumRanges data) j) ∧
      (OpenTypeGASP.fresh v0).Parse data =
        (Outcome.success, stateAfter (headerVersion data) data (headerNumRanges data)) := by
  by_cases hlen : 4 ≤ data.length
  · by_cases hv : headerVersion data ≤ 1
    · by_cases hn : 1 ≤ headerNumRanges data
      · rcases all_pass_or_first_fail data (headerNumRanges data) with hall | ⟨j, hj, hfail, hbefore⟩
        · exact ⟨hlen, hv, hn, hall, Parse_accept v0 data hlen hv hn hall⟩
        · rw [Parse_reject v0 j data hlen hv hj hbefore hfail] at h
          exact absurd h (rejection_ne_success data j)
      · rw [Parse_header v0 data hlen, if_neg (by omega), if_pos (by omega)] at h
        exact absurd h (by simp)
    · rw [Parse_header v0 data hlen, if_pos (by omega)] at h
      exact absurd h (by simp)
  · rw [Parse_short _ data (by omega)] at h
    exact absurd h (by simp)

theorem rejection_ne_outOfBounds (data : List Byte) (j : Nat) :
    rejection data j ≠ Outcome.outOfBounds := by
  unfold rejection
  split_ifs <;> simp

theorem Parse_ne_outOfBounds (v0 : Nat) (data : List Byte) :
    ((OpenTypeGASP.fresh v0).Parse data).1 ≠ Outcome.outOfBounds := by
  by_cases hlen : 4 ≤ data.length
  · by_cases hv : headerVersion data ≤ 1
    · by_cases hn : 1 ≤ headerNumRanges data
      · rcases all_pass_or_first_fail data (headerNumRanges data) with
          hall | ⟨j, hj, hfail, hbefore⟩
        · rw [Parse_accept v0 data hlen hv hn hall]
          simp
        · rw [Parse_reject v0 j data hlen hv hj hbefore hfail]
          exact rejection_ne_outOfBounds data j
      · rw [Parse_header v0 data hlen, if_neg (by omega), if_pos (by omega)]
        simp
    · rw [Parse_header v0 data hlen, if_pos (by omega)]
      simp
  · rw [Parse_short _ data (by omega)]
    simp

/-! ## The version and the flags of the closed form -/

theorem nextVersion_le_one (v b : Nat) (h : v ≤ 1) : nextVersion v b ≤ 1 := by
  unfold nextVersion
  split_ifs <;> omega

theorem stateAfter_version_le_one (v : Nat) (data : List Byte) (n : Nat) (h : v ≤ 1) :
    (stateAfter v data n).version ≤ 1 := by
  induction n with
  | zero => exact h
  | succ n ih => exact nextVersion_le_one _ _ ih

theorem stateAfter_version_zero (v : Nat) (data : List Byte) (n : Nat)
    (h : (stateAfter v data n).version = 0) :
    v = 0 ∧ ∀ j, j < n → storedBehavior (behaviorAt data j) >>> 2 = 0 := by
  induction n with
  | zero => exact ⟨h, fun j hj => absurd hj (Nat.not_lt_zero j)⟩
  | succ n ih =>
    have hstep : nextVersion (stateAfter v data n).version
        (storedBehavior (behaviorAt data n)) = 0 := h
    unfold nextVersion at hstep
    by_cases hc : (stateAfter v data n).version = 0 ∧
        storedBehavior (behaviorAt data n) >>> 2 ≠ 0
    · rw [if_pos hc] at hstep
      omega
    · rw [if_neg hc] at hstep
      have h0 := ih hstep
      refine ⟨h0.1, fun j hj => ?_⟩
      by_cases hjn : j < n
      · exact h0.2 j hjn
      · have : j = n := by omega
        subst this
        by_contra hne
        exact hc ⟨hstep, hne⟩

theorem stateAfter_version_keep (v : Nat) (data : List Byte) (n : Nat)
    (h : v = 0 → ∀ j, j < n → storedBehavior (behaviorAt data j) >>> 2 = 0) :
    (stateAfter v data n).version = v := by
  induction n with
  | zero => rfl
  | succ n ih =>
    have ih2 := ih (fun hv j hj => h hv j (by omega))
    simp only [stateAfter, nextVersion, ih2]
    rw [if_neg]
    rintro ⟨hv, hne⟩
    exact hne (h hv n (by omega))

theorem stateAfter_map_fst (v : Nat) (data : List Byte) (n : Nat) :
    (stateAfter v data n).gasp_ranges.map Prod.fst = (List.range n).map (thresholdAt data) := by
  induction n with
  | zero => rfl
  | succ n ih => simp [stateAfter, ih, List.range_succ]

/-! ## Bits of the flags -/

theorem shiftRight_two_ne_zero_of_uses (b : Nat) (h : usesSymmetricBits b) : b >>> 2 ≠ 0 := by
  rw [Nat.shiftRight_eq_div_pow]
  rcases h with h | h
  · have := Nat.testBit_implies_ge h
    norm_num at this ⊢
    omega
  · have := Nat.testBit_implies_ge h
    norm_num at this ⊢
    omega

theorem storedBehavior_uses (b : Nat) (h : usesSymmetricBits b) :
    usesSymmetricBits (storedBehavior b) := by
  unfold storedBehavior
  split_ifs
  · unfold usesSymmetricBits at h ⊢
    rw [Nat.testBit_and, Nat.testBit_and]
    rcases h with h | h
    · left; rw [h]; decide
    · right; rw [h]; decide
  · exact h

theorem stateAfter_mem (v : Nat) (data : List Byte) (n : Nat) (r : Nat × Nat)
    (h : r ∈ (stateAfter v data n).gasp_ranges) :
    ∃ j, j < n ∧ r = (thresholdAt data j, storedBehavior (behaviorAt data j)) := by
  obtain ⟨j, hj⟩ := List.mem_iff_getElem?.mp h
  have hlt : j < n := by
    obtain ⟨hlt, _⟩ := List.getElem?_eq_some.mp hj
    rwa [stateAfter_length] at hlt
  rw [stateAfter_getElem? v data n j hlt] at hj
  exact ⟨j, hlt, (Option.some.inj hj).symm⟩

/-! ## Properties of `Parse` -/

/-- C2: soundness of `Parse`. Whenever `Parse`, run on a fresh object, returns
success, the table it leaves has version 0 or 1, at least one range, strictly
increasing thresholds over every adjacent pair, and 0xFFFF as last threshold. -/
theorem Parse_sound (v0 : Nat) (data : List Byte)
    (h : ((OpenTypeGASP.fresh v0).Parse data).1 = Outcome.success) :
    (((OpenTypeGASP.fresh v0).Parse data).2.version = 0 ∨
        ((OpenTypeGASP.fresh v0).Parse data).2.version = 1) ∧
      ((OpenTypeGASP.fresh v0).Parse data).2.gasp_ranges ≠ [] ∧
      StrictlyIncreasing ((OpenTypeGASP.fresh v0).Parse data).2.gasp_ranges ∧
      EndsWithSentinel ((OpenTypeGASP.fresh v0).Parse data).2.gasp_ranges := by
  obtain ⟨_, hv, hn, hall, heq⟩ := Parse_success_inv v0 data h
  rw [heq]
  simp only
  refine ⟨?_, ?_, ?_, ?_⟩
  · have := stateAfter_version_le_one _ data (headerNumRanges data) hv
    omega
  · intro hnil
    have hlen := stateAfter_length (headerVersion data) data (headerNumRanges data)
    rw [hnil] at hlen
    simp at hlen
    omega
  · intro i a b ha hb
    have hlt : i + 1 < headerNumRanges data := by
      obtain ⟨hlt, _⟩ := List.getElem?_eq_some.mp hb
      rwa [stateAfter_length] at hlt
    rw [stateAfter_getElem? _ data _ i (by omega)] at ha
    rw [stateAfter_getElem? _ data _ (i + 1) hlt] at hb
    rw [← Option.some.inj ha, ← Option.some.inj hb]
    exact (hall (i + 1) hlt).2.1 (by omega)
  · unfold EndsWithSentinel
    rw [List.getLast?_eq_getElem?, stateAfter_length,
      stateAfter_getElem? _ data _ (headerNumRanges data - 1) (by omega)]
    have := (hall (headerNumRanges data - 1) (by omega)).2.2 (by omega)
    simp [this]

/-- Witness of C2 on a two-range table. -/
theorem Parse_sound_witness :
    ((OpenTypeGASP.fresh 0).Parse [0, 1, 0, 2, 0, 10, 0, 1, 0xFF, 0xFF, 0, 15]).1
        = Outcome.success ∧
      ((((OpenTypeGASP.fresh 0).Parse [0, 1, 0, 2, 0, 10, 0, 1, 0xFF, 0xFF, 0, 15]).2.version = 0 ∨
        ((OpenTypeGASP.fresh 0).Parse [0, 1, 0, 2, 0, 10, 0, 1, 0xFF, 0xFF, 0, 15]).2.version = 1) ∧
      ((OpenTypeGASP.fresh 0).Parse [0, 1, 0, 2, 0, 10, 0, 1, 0xFF, 0xFF, 0, 15]).2.gasp_ranges
        ≠ [] ∧
      StrictlyIncreasing
        ((OpenTypeGASP.fresh 0).Parse [0, 1, 0, 2, 0, 10, 0, 1, 0xFF, 0xFF, 0, 15]).2.gasp_ranges ∧
      EndsWithSentinel
        ((OpenTypeGASP.fresh 0).Parse [0, 1, 0, 2, 0, 10, 0, 1, 0xFF, 0xFF, 0, 15]).2.gasp_ranges) :=
  ⟨by decide, Parse_sound 0 [0, 1, 0, 2, 0, 10, 0, 1, 0xFF, 0xFF, 0, 15] (by decide)⟩

/-- C3: completeness and fidelity of `Parse`. On an input of at least
`4 + 4 * numRanges` bytes whose header has version at most 1 and `numRanges` at
least 1, whose thresholds are strictly increasing and whose last threshold is
0xFFFF, `Parse` returns success, and the table has exactly `numRanges` ranges
whose thresholds are the big-endian values at offsets `4 + 4 * i`, in order. -/
theorem Parse_complete (v0 : Nat) (data : List Byte)
    (hlen : 4 + 4 * headerNumRanges data ≤ data.length)
    (hv : headerVersion data ≤ 1) (hn : 1 ≤ headerNumRanges data)
    (hinc : ∀ i, i + 1 < headerNumRanges data → thresholdAt data i < thresholdAt data (i + 1))
    (hlast : thresholdAt data (headerNumRanges data - 1) = 0xFFFF) :
    ((OpenTypeGASP.fresh v0).Parse data).1 = Outcome.success ∧
      ((OpenTypeGASP.fresh v0).Parse data).2.gasp_ranges.length = headerNumRanges data ∧
      ((OpenTypeGASP.fresh v0).Parse data).2.gasp_ranges.map Prod.fst =
        (List.range (headerNumRanges data)).map (fun i => u16At data (4 + 4 * i)) := by
  have hall : ∀ j, j < headerNumRanges data → Passes data (headerNumRanges data) j := by
    intro j hj
    refine ⟨?_, ?_, ?_⟩
    · unfold Readable; omega
    · intro hpos
      have := hinc (j - 1) (by omega)
      rwa [show j - 1 + 1 = j by omega] at this
    · intro hj1
      rw [show j = headerNumRanges data - 1 by omega]
      exact hlast
  rw [Parse_accept v0 data (by omega) hv hn hall]
  exact ⟨rfl, stateAfter_length _ _ _, stateAfter_map_fst _ _ _⟩

/-- Witness of C3 on a two-range table followed by one stray byte. -/
theorem Parse_complete_witness :
    ((OpenTypeGASP.fresh 0).Parse [0, 1, 0, 2, 0, 10, 0, 1, 0xFF, 0xFF, 0, 15, 7]).1
        = Outcome.success ∧
      ((OpenTypeGASP.fresh 0).Parse
        [0, 1, 0, 2, 0, 10, 0, 1, 0xFF, 0xFF, 0, 15, 7]).2.gasp_ranges.length =
        headerNumRanges [0, 1, 0, 2, 0, 10, 0, 1, 0xFF, 0xFF, 0, 15, 7] ∧
      ((OpenTypeGASP.fresh 0).Parse
        [0, 1, 0, 2, 0, 10, 0, 1, 0xFF, 0xFF, 0, 15, 7]).2.gasp_ranges.map Prod.fst =
        (List.range (headerNumRanges [0, 1, 0, 2, 0, 10, 0, 1, 0xFF, 0xFF, 0, 15, 7])).map
          (fun i => u16At [0, 1, 0, 2, 0, 10, 0, 1, 0xFF, 0xFF, 0, 15, 7] (4 + 4 * i)) :=
  Parse_complete 0 [0, 1, 0, 2, 0, 10, 0, 1, 0xFF, 0xFF, 0, 15, 7] (by decide) (by decide)
    (by decide)
    (by
      intro i hi
      have hi2 : i + 1 < 2 := hi
      have hi0 : i = 0 := by omega
      subst hi0
      decide)
    (by decide)

/-- C4, evaluated on the code: the input of one range with flags 0x0013 under
version 0 is accepted and the flags are stored as 0x0013, bit 4 included,
whereas 0x0013 AND 0x000F is 0x0003. The mask of gasp.cc line 52 is applied
only when a bit from 8 up is set (line 49). -/
theorem Parse_keeps_reserved_bit :
    behaviorAt [0, 0, 0, 1, 0xFF, 0xFF, 0x00, 0x13] 0 = 0x0013 ∧
      ((OpenTypeGASP.fresh 0).Parse [0, 0, 0, 1, 0xFF, 0xFF, 0x00, 0x13]).1 = Outcome.success ∧
      ((OpenTypeGASP.fresh 0).Parse [0, 0, 0, 1, 0xFF, 0xFF, 0x00, 0x13]).2.gasp_ranges =
        [(0xFFFF, 0x0013)] ∧
      0x0013 &&& 0x000F = 0x0003 := by
  decide

/-- C5, evaluated on the code: the input of one range with flags 0x0013 under
header version 0 has neither bit 2 nor bit 3 set, is accepted, and yet leaves
the table with version 1: the unmasked bit 4 makes `behavior >> 2` non-zero
(gasp.cc line 55). -/
theorem Parse_upgrades_on_reserved_bit :
    headerVersion [0, 0, 0, 1, 0xFF, 0xFF, 0x00, 0x13] = 0 ∧
      ¬ usesSymmetricBits (behaviorAt [0, 0, 0, 1, 0xFF, 0xFF, 0x00, 0x13] 0) ∧
      ((OpenTypeGASP.fresh 0).Parse [0, 0, 0, 1, 0xFF, 0xFF, 0x00, 0x13]).1 = Outcome.success ∧
      ((OpenTypeGASP.fresh 0).Parse [0, 0, 0, 1, 0xFF, 0xFF, 0x00, 0x13]).2.version = 1 := by
  decide

/-- C6: corrective version upgrade. Whenever `Parse`, run on a fresh object,
returns success: if the input flags of any range have bit 2 or bit 3 set, the
table has version 1; if the stored flags of any range have bit 2 or bit 3 set,
the table has version 1; and a table left with version 0 stores no flags with
bit 2 or bit 3 set. -/
theorem Parse_version_upgrade (v0 : Nat) (data : List Byte)
    (h : ((OpenTypeGASP.fresh v0).Parse data).1 = Outcome.success) :
    (∀ i, i < headerNumRanges data → usesSymmetricBits (behaviorAt data i) →
        ((OpenTypeGASP.fresh v0).Parse data).2.version = 1) ∧
      (∀ r ∈ ((OpenTypeGASP.fresh v0).Parse data).2.gasp_ranges, usesSymmetricBits r.2 →
        ((OpenTypeGASP.fresh v0).Parse data).2.version = 1) ∧
      (((OpenTypeGASP.fresh v0).Parse data).2.version = 0 →
        ∀ r ∈ ((OpenTypeGASP.fresh v0).Parse data).2.gasp_ranges, ¬ usesSymmetricBits r.2) := by
  obtain ⟨_, hv, hn, hall, heq⟩ := Parse_success_inv v0 data h
  rw [heq]
  simp only
  have hle := stateAfter_version_le_one _ data (headerNumRanges data) hv
  have hstored : ∀ j, j < headerNumRanges data →
      usesSymmetricBits (storedBehavior (behaviorAt data j)) →
      (stateAfter (headerVersion data) data (headerNumRanges data)).version = 1 := by
    intro j hj huses
    by_contra hne
    have hzero : (stateAfter (headerVersion data) data (headerNumRanges data)).version = 0 := by
      omega
    exact shiftRight_two_ne_zero_of_uses _ huses
      ((stateAfter_version_zero _ data _ hzero).2 j hj)
  refine ⟨?_, ?_, ?_⟩
  · intro i hi huses
    exact hstored i hi (storedBehavior_uses _ huses)
  · intro r hr huses
    obtain ⟨j, hj, rfl⟩ := stateAfter_mem _ data _ r hr
    exact hstored j hj huses
  · intro hzero r hr huses
    obtain ⟨j, hj, rfl⟩ := stateAfter_mem _ data _ r hr
    have := hstored j hj huses
    omega

/-- Witness of C6: header version 0 with flags 0x0004 yields version 1 and
stored flags 0x0004. -/
theorem Parse_version_upgrade_witness :
    (OpenTypeGASP.fresh 0).Parse [0, 0, 0, 1, 0xFF, 0xFF, 0x00, 0x04] =
        (Outcome.success, { version := 1, gasp_ranges := [(0xFFFF, 0x0004)] }) ∧
      ∀ i, i < headerNumRanges [0, 0, 0, 1, 0xFF, 0xFF, 0x00, 0x04] →
        usesSymmetricBits (behaviorAt [0, 0, 0, 1, 0xFF, 0xFF, 0x00, 0x04] i) →
        ((OpenTypeGASP.fresh 0).Parse [0, 0, 0, 1, 0xFF, 0xFF, 0x00, 0x04]).2.version = 1 :=
  ⟨by decide,
    (Parse_version_upgrade 0 [0, 0, 0, 1, 0xFF, 0xFF, 0x00, 0x04] (by decide)).1⟩

/-- C7: header policy rejection. On an input of at least 4 bytes whose header
has version above 1 or `numRanges` equal to 0, `Parse` returns Drop, whatever
follows the header. -/
theorem Parse_header_drop (v0 : Nat) (data : List Byte) (hlen : 4 ≤ data.length)
    (h : headerVersion data > 1 ∨ headerNumRanges data = 0) :
    ((OpenTypeGASP.fresh v0).Parse data).1.isDrop := by
  rw [Parse_header v0 data hlen]
  by_cases hv : headerVersion data > 1
  · rw [if_pos hv]
    exact trivial
  · rw [if_neg hv, if_pos (by omega)]
    exact trivial

/-- Witness of C7: version 2 with nothing after the header. -/
theorem Parse_header_drop_witness :
    4 ≤ ([0, 2, 0, 1] : List Byte).length ∧
      (headerVersion [0, 2, 0, 1] > 1 ∨ headerNumRanges [0, 2, 0, 1] = 0) ∧
      ((OpenTypeGASP.fresh 0).Parse [0, 2, 0, 1]).1.isDrop :=
  ⟨by decide, by decide, Parse_header_drop 0 [0, 2, 0, 1] (by decide) (by decide)⟩

/-- C8: ordering rejection. With header version at most 1 (and `numRanges` at
least 1, which `i < numRanges` entails), if some range `i` with
`0 < i < numRanges` lies inside the input
together with all ranges before it and its threshold is not above the one of
range `i - 1`, then `Parse` returns Drop, wherever the input ends after
range `i`. -/
theorem Parse_unsorted_drop (v0 : Nat) (data : List Byte)
    (hv : headerVersion data ≤ 1)
    (i : Nat) (hi0 : 0 < i) (hin : i < headerNumRanges data)
    (hpresent : 4 + 4 * (i + 1) ≤ data.length)
    (hle : thresholdAt data i ≤ thresholdAt data (i - 1)) :
    ((OpenTypeGASP.fresh v0).Parse data).1.isDrop := by
  have hbad : ¬ Passes data (headerNumRanges data) i := by
    rintro ⟨_, ho, _⟩
    have := ho hi0
    omega
  rcases all_pass_or_first_fail data (headerNumRanges data) with hall | ⟨j, hj, hfail, hbefore⟩
  · exact absurd (hall i hin) hbad
  · rw [Parse_reject v0 j data (by omega) hv hj hbefore hfail]
    have hji : j ≤ i := by
      by_contra hc
      exact hbad (hbefore i (by omega))
    exact rejection_isDrop data j (by unfold Readable; omega)

/-- Witness of C8: thresholds 10, 10, 0xFFFF, and the same table cut after the
second range. -/
theorem Parse_unsorted_drop_witness :
    ((OpenTypeGASP.fresh 0).Parse
        [0, 0, 0, 3, 0, 10, 0, 1, 0, 10, 0, 2, 0xFF, 0xFF, 0, 3]).1.isDrop ∧
      ((OpenTypeGASP.fresh 0).Parse [0, 0, 0, 3, 0, 10, 0, 1, 0, 10, 0, 2]).1 =
        Outcome.Drop "ranges are not sorted" [] :=
  ⟨Parse_unsorted_drop 0 [0, 0, 0, 3, 0, 10, 0, 1, 0, 10, 0, 2, 0xFF, 0xFF, 0, 3]
      (by decide) 1 (by decide) (by decide) (by decide) (by decide),
    by decide⟩

/-- C9: sentinel rejection. On an input of at least `4 + 4 * numRanges` bytes
with header version at most 1 and `numRanges` at least 1 whose last threshold
is not 0xFFFF, `Parse` returns Drop, whether or not the thresholds are
strictly increasing. -/
theorem Parse_no_sentinel_drop (v0 : Nat) (data : List Byte)
    (hlen : 4 + 4 * headerNumRanges data ≤ data.length)
    (hv : headerVersion data ≤ 1) (hn : 1 ≤ headerNumRanges data)
    (hlast : thresholdAt data (headerNumRanges data - 1) ≠ 0xFFFF) :
    ((OpenTypeGASP.fresh v0).Parse data).1.isDrop := by
  have hbad : ¬ Passes data (headerNumRanges data) (headerNumRanges data - 1) := by
    rintro ⟨_, _, hs⟩
    exact hlast (hs (by omega))
  rcases all_pass_or_first_fail data (headerNumRanges data) with hall | ⟨j, hj, hfail, hbefore⟩
  · exact absurd (hall _ (by omega)) hbad
  · rw [Parse_reject v0 j data (by omega) hv hj hbefore hfail]
    exact rejection_isDrop data j (by unfold Readable; omega)

/-- Witness of C9: strictly increasing thresholds 10, 20 without sentinel. -/
theorem Parse_no_sentinel_drop_witness :
    ((OpenTypeGASP.fresh 0).Parse [0, 1, 0, 2, 0, 10, 0, 1, 0, 20, 0, 2]).1.isDrop ∧
      ((OpenTypeGASP.fresh 0).Parse [0, 1, 0, 2, 0, 10, 0, 1, 0, 20, 0, 2]).1 =
        Outcome.Drop "The last record should be 0xFFFF as a sentinel value for rangeMaxPPEM" [] :=
  ⟨Parse_no_sentinel_drop 0 [0, 1, 0, 2, 0, 10, 0, 1, 0, 20, 0, 2]
      (by decide) (by decide) (by decide) (by decide),
    by decide⟩

/-- C10: `Parse`, run on a fresh object, returns Error exactly when the input
is shorter than 4 bytes, or the header has version at most 1 and `numRanges` at
least 1, the number `k = (length - 4) / 4` of complete ranges present is less
than `numRanges`, and the first `k` thresholds are strictly increasing. -/
theorem Parse_error_iff (v0 : Nat) (data : List Byte) :
    ((OpenTypeGASP.fresh v0).Parse data).1.isError ↔
      (data.length < 4 ∨
        (headerVersion data ≤ 1 ∧ 1 ≤ headerNumRanges data ∧
          (data.length - 4) / 4 < headerNumRanges data ∧
          ∀ i, i + 1 < (data.length - 4) / 4 → thresholdAt data i < thresholdAt data (i + 1))) := by
  by_cases hlen : data.length < 4
  · rw [Parse_short _ data hlen]
    exact ⟨fun _ => Or.inl hlen, fun _ => trivial⟩
  · have hlen4 : 4 ≤ data.length := by omega
    constructor
    · intro herr
      right
      by_cases hv : headerVersion data ≤ 1
      · by_cases hn : 1 ≤ headerNumRanges data
        · rcases all_pass_or_first_fail data (headerNumRanges data) with
            hall | ⟨j, hj, hfail, hbefore⟩
          · rw [Parse_accept v0 data hlen4 hv hn hall] at herr
            exact absurd herr (by simp [Outcome.isError])
          · rw [Parse_reject v0 j data hlen4 hv hj hbefore hfail] at herr
            have hunread : ¬ Readable data j := by
              intro hr
              have hd := rejection_isDrop data j hr
              revert herr hd
              cases rejection data j <;> simp [Outcome.isError, Outcome.isDrop]
            have hjk : j = (data.length - 4) / 4 := by
              have hge : (data.length - 4) / 4 ≤ j := by
                unfold Readable at hunread
                omega
              have hle : j ≤ (data.length - 4) / 4 := by
                by_contra hc
                have hr := (hbefore ((data.length - 4) / 4) (by omega)).1
                unfold Readable at hr
                omega
              omega
            refine ⟨hv, hn, by omega, ?_⟩
            intro i hi
            have := (hbefore (i + 1) (by omega)).2.1 (by omega)
            simpa using this
        · rw [Parse_header v0 data hlen4, if_neg (by omega), if_pos (by omega)] at herr
          exact absurd herr (by simp [Outcome.isError])
      · rw [Parse_header v0 data hlen4, if_pos (by omega)] at herr
        exact absurd herr (by simp [Outcome.isError])
    · rintro (hshort | ⟨hv, hn, hk, hinc⟩)
      · omega
      · have hbefore : ∀ j, j < (data.length - 4) / 4 →
            Passes data (headerNumRanges data) j := by
          intro j hj
          refine ⟨?_, ?_, ?_⟩
          · unfold Readable; omega
          · intro hpos
            have := hinc (j - 1) (by omega)
            rwa [show j - 1 + 1 = j by omega] at this
          · intro hj1
            omega
        have hunread : ¬ Readable data ((data.length - 4) / 4) := by
          unfold Readable
          omega
        rw [Parse_reject v0 _ data hlen4 hv hk hbefore (fun hp => hunread hp.1),
          rejection_isError data _ hunread]
        exact trivial

/-! ## Serialising to a memory stream -/

theorem MemoryStream_WriteU16 (out : List Byte) (v : Nat) :
    MemoryStream.WriteU16 out v = (true, out ++ be16 v) := rfl

theorem SerializeLoop_memory (t : OpenTypeGASP) :
    ∀ todo i out, i + todo = t.gasp_ranges.length →
      t.SerializeLoop MemoryStream todo i out =
        (Outcome.success, out ++ layoutRanges (t.gasp_ranges.drop i)) := by
  intro todo
  induction todo with
  | zero =>
    intro i out hi
    have : t.gasp_ranges.drop i = [] := List.drop_eq_nil_of_le (by omega)
    simp [OpenTypeGASP.SerializeLoop, this, layoutRanges]
  | succ todo ih =>
    intro i out hi
    have hlt : i < t.gasp_ranges.length := by omega
    rw [OpenTypeGASP.SerializeLoop, List.getElem?_eq_getElem hlt]
    simp only [MemoryStream_WriteU16]
    rw [ih (i + 1) _ (by omega), List.drop_eq_getElem_cons hlt]
    simp [layoutRanges, List.append_assoc]

theorem Serialize_memory (t : OpenTypeGASP) (out : List Byte)
    (h : t.gasp_ranges.length ≤ 65535) :
    t.Serialize MemoryStream out = (Outcome.success, out ++ layoutTable t) := by
  have hmod : t.gasp_ranges.length % 65536 = t.gasp_ranges.length := Nat.mod_eq_of_lt (by omega)
  unfold OpenTypeGASP.Serialize
  simp only [hmod, ne_eq, not_true_eq_false, if_false, MemoryStream_WriteU16]
  rw [SerializeLoop_memory t _ 0 _ (by omega)]
  simp [layoutTable, List.append_assoc]

theorem Serialize_overflow {σ : Type} (t : OpenTypeGASP) (stream : OTSStream σ) (out : σ)
    (h : 65535 < t.gasp_ranges.length) :
    t.Serialize stream out = (Outcome.Error "failed to write gasp header" [], out) := by
  have hmod : t.gasp_ranges.length % 65536 ≠ t.gasp_ranges.length := by
    have := Nat.mod_lt t.gasp_ranges.length (show 65536 > 0 by decide)
    omega
  unfold OpenTypeGASP.Serialize
  simp only [hmod, ne_eq, not_false_eq_true, if_true]

/-! ## Reading the layout back -/

theorem be16_length (v : Nat) : (be16 v).length = 2 := rfl

theorem layoutRanges_length (rs : List (Nat × Nat)) :
    (layoutRanges rs).length = 4 * rs.length := by
  induction rs with
  | nil => rfl
  | cons r rs ih => simp [layoutRanges, be16_length, ih]; omega

theorem layoutTable_length (t : OpenTypeGASP) :
    (layoutTable t).length = 4 + 4 * t.gasp_ranges.length := by
  simp only [layoutTable, List.length_append, be16_length, layoutRanges_length]

theorem u16At_be16_append (v : Nat) (rest : List Byte) :
    u16At (be16 v ++ rest) 0 = v % 65536 := by
  simp [u16At, be16]
  omega

theorem u16At_append_right (l₁ l₂ : List Byte) (off : Nat) (h : l₁.length ≤ off) :
    u16At (l₁ ++ l₂) off = u16At l₂ (off - l₁.length) := by
  unfold u16At
  rw [List.getD_append_right _ _ _ _ h, List.getD_append_right _ _ _ _ (by omega)]
  rw [show off + 1 - l₁.length = off - l₁.length + 1 by omega]

theorem u16At_layoutRanges (rs : List (Nat × Nat)) :
    ∀ j r, rs[j]? = some r →
      u16At (layoutRanges rs) (4 * j) = r.1 % 65536 ∧
        u16At (layoutRanges rs) (4 * j + 2) = r.2 % 65536 := by
  induction rs with
  | nil => intro j r h; simp at h
  | cons r0 rs ih =>
    intro j r h
    cases j with
    | zero =>
      simp only [List.getElem?_cons_zero, Option.some.injEq] at h
      subst h
      constructor
      · simp only [layoutRanges, List.append_assoc]
        exact u16At_be16_append _ _
      · simp only [layoutRanges, List.append_assoc]
        rw [u16At_append_right _ _ _ (by rw [be16_length])]
        simp only [be16_length]
        exact u16At_be16_append _ _
    | succ j =>
      simp only [List.getElem?_cons_succ] at h
      obtain ⟨h1, h2⟩ := ih j r h
      constructor
      · simp only [layoutRanges]
        rw [u16At_append_right _ _ _ (by rw [List.length_append, be16_length, be16_length]; omega)]
        simp only [List.length_append, be16_length]
        rw [show 4 * (j + 1) - (2 + 2) = 4 * j by omega]
        exact h1
      · simp only [layoutRanges]
        rw [u16At_append_right _ _ _ (by rw [List.length_append, be16_length, be16_length]; omega)]
        simp only [List.length_append, be16_length]
        rw [show 4 * (j + 1) + 2 - (2 + 2) = 4 * j + 2 by omega]
        exact h2

theorem headerVersion_layoutTable (t : OpenTypeGASP) :
    headerVersion (layoutTable t) = t.version % 65536 := by
  simp only [headerVersion, layoutTable, List.append_assoc]
  exact u16At_be16_append _ _

theorem headerNumRanges_layoutTable (t : OpenTypeGASP) :
    headerNumRanges (layoutTable t) = t.gasp_ranges.length % 65536 := by
  simp only [headerNumRanges, layoutTable, List.append_assoc]
  rw [u16At_append_right _ _ _ (by rw [be16_length])]
  simp only [be16_length]
  exact u16At_be16_append _ _

theorem thresholdAt_layoutTable (t : OpenTypeGASP) (j : Nat) (r : Nat × Nat)
    (h : t.gasp_ranges[j]? = some r) :
    thresholdAt (layoutTable t) j = r.1 % 65536 := by
  simp only [thresholdAt, layoutTable]
  rw [u16At_append_right _ _ _ (by rw [List.length_append, be16_length, be16_length]; omega)]
  simp only [List.length_append, be16_length]
  rw [show 4 + 4 * j - (2 + 2) = 4 * j by omega]
  exact (u16At_layoutRanges _ j r h).1

theorem behaviorAt_layoutTable (t : OpenTypeGASP) (j : Nat) (r : Nat × Nat)
    (h : t.gasp_ranges[j]? = some r) :
    behaviorAt (layoutTable t) j = r.2 % 65536 := by
  simp only [behaviorAt, layoutTable]
  rw [u16At_append_right _ _ _ (by rw [List.length_append, be16_length, be16_length]; omega)]
  simp only [List.length_append, be16_length]
  rw [show 6 + 4 * j - (2 + 2) = 4 * j + 2 by omega]
  exact (u16At_layoutRanges _ j r h).2

/-! ## Consequences of the invariants of §3 -/

theorem StrictlyIncreasing_add_le (rs : List (Nat × Nat)) (h : StrictlyIncreasing rs) :
    ∀ (d j : Nat) (a b : Nat × Nat),
      rs[j]? = some a → rs[j + d]? = some b → a.1 + d ≤ b.1 := by
  intro d
  induction d with
  | zero =>
    intro j a b ha hb
    rw [Nat.add_zero, ha] at hb
    rw [Option.some.inj hb]
    omega
  | succ d ih =>
    intro j a b ha hb
    have hlt : j + d < rs.length := by
      obtain ⟨hlt, _⟩ := List.getElem?_eq_some.mp hb
      omega
    have hc := List.getElem?_eq_getElem hlt
    have h1 := ih j a _ ha hc
    have h2 := h (j + d) _ b hc hb
    omega

theorem Valid.threshold_lt {t : OpenTypeGASP} (h : Valid t) (j : Nat) (r : Nat × Nat)
    (hr : t.gasp_ranges[j]? = some r) : r.1 < 65536 := by
  have hlt : j < t.gasp_ranges.length := (List.getElem?_eq_some.mp hr).1
  have hs := h.sentinel
  unfold EndsWithSentinel at hs
  rw [List.getLast?_eq_getElem?] at hs
  have hlast := List.getElem?_eq_getElem (show t.gasp_ranges.length - 1 < t.gasp_ranges.length
    by omega)
  rw [hlast] at hs
  simp only [Option.map_some', Option.some.injEq] at hs
  have := StrictlyIncreasing_add_le _ h.increasing (t.gasp_ranges.length - 1 - j) j r _ hr
    (by rw [show j + (t.gasp_ranges.length - 1 - j) = t.gasp_ranges.length - 1 by omega]
        exact hlast)
  omega

theorem storedBehavior_of_lt (b : Nat) (h : b < 16) : storedBehavior b = b := by
  unfold storedBehavior
  rw [if_neg]
  rw [Nat.shiftRight_eq_div_pow]
  norm_num
  omega

theorem shiftRight_two_of_not_uses (b : Nat) (h : b < 16) (hn : ¬ usesSymmetricBits b) :
    b >>> 2 = 0 := by
  unfold usesSymmetricBits at hn
  interval_cases b <;> first | rfl | exact absurd (by decide) hn

theorem stateAfter_layoutTable (t : OpenTypeGASP) (h : Valid t) :
    stateAfter t.version (layoutTable t) t.gasp_ranges.length = t := by
  have hfield : ∀ j r, t.gasp_ranges[j]? = some r →
      thresholdAt (layoutTable t) j = r.1 ∧
        storedBehavior (behaviorAt (layoutTable t) j) = r.2 := by
    intro j r hr
    have hmem : r ∈ t.gasp_ranges := List.mem_iff_getElem?.mpr ⟨j, hr⟩
    have h16 := h.flags_lt r hmem
    rw [thresholdAt_layoutTable t j r hr, behaviorAt_layoutTable t j r hr,
      Nat.mod_eq_of_lt (h.threshold_lt j r hr), Nat.mod_eq_of_lt (by omega),
      storedBehavior_of_lt _ h16]
    exact ⟨rfl, rfl⟩
  have hver : (stateAfter t.version (layoutTable t) t.gasp_ranges.length).version =
      t.version := by
    apply stateAfter_version_keep
    intro hv j hj
    have hr := List.getElem?_eq_getElem hj
    rw [(hfield j _ hr).2]
    have hmem : t.gasp_ranges[j] ∈ t.gasp_ranges := List.getElem_mem hj
    exact shiftRight_two_of_not_uses _ (h.flags_lt _ hmem) (h.version_zero hv _ hmem)
  have hranges : (stateAfter t.version (layoutTable t) t.gasp_ranges.length).gasp_ranges =
      t.gasp_ranges := by
    apply List.ext_getElem?
    intro j
    by_cases hj : j < t.gasp_ranges.length
    · have hr := List.getElem?_eq_getElem hj
      rw [stateAfter_getElem? _ _ _ j hj, hr, (hfield j _ hr).1, (hfield j _ hr).2]
    · rw [List.getElem?_eq_none (by rw [stateAfter_length]; omega),
        List.getElem?_eq_none (by omega)]
  cases t with
  | mk version gasp_ranges =>
    simp only at hver hranges
    generalize stateAfter version
      (layoutTable { version := version, gasp_ranges := gasp_ranges }) gasp_ranges.length = s
      at hver hranges
    cases s
    simp only at hver hranges
    rw [hver, hranges]

theorem layoutTable_passes (t : OpenTypeGASP) (h : Valid t)
    (hlen : t.gasp_ranges.length ≤ 65535) (j : Nat) (hj : j < t.gasp_ranges.length) :
    Passes (layoutTable t) t.gasp_ranges.length j := by
  have hsome : ∀ k (hk : k < t.gasp_ranges.length),
      thresholdAt (layoutTable t) k = t.gasp_ranges[k].1 := by
    intro k hk
    have hr := List.getElem?_eq_getElem hk
    rw [thresholdAt_layoutTable t k _ hr, Nat.mod_eq_of_lt (h.threshold_lt k _ hr)]
  refine ⟨?_, ?_, ?_⟩
  · unfold Readable
    rw [layoutTable_length]
    omega
  · intro hpos
    rw [hsome (j - 1) (by omega), hsome j hj]
    have h2 : t.gasp_ranges[j - 1 + 1]? = some t.gasp_ranges[j] := by
      rw [← List.getElem?_eq_getElem hj]
      congr 1
      omega
    exact h.increasing (j - 1) _ _ (List.getElem?_eq_getElem (by omega)) h2
  · intro hj1
    rw [hsome j hj]
    have hs := h.sentinel
    unfold EndsWithSentinel at hs
    rw [List.getLast?_eq_getElem?] at hs
    have hidx : t.gasp_ranges[t.gasp_ranges.length - 1]? = some t.gasp_ranges[j] := by
      rw [← List.getElem?_eq_getElem hj]
      congr 1
      omega
    rw [hidx] at hs
    simpa using hs

theorem twoRangeTable_valid : Valid twoRangeTable where
  version_le := Or.inr rfl
  nonempty := by simp [twoRangeTable]
  increasing := by
    intro i a b ha hb
    rcases i with _ | _ | i
    · simp only [twoRangeTable, List.getElem?_cons_zero, List.getElem?_cons_succ,
        Option.some.injEq] at ha hb
      subst ha hb
      decide
    · simp [twoRangeTable] at hb
    · simp [twoRangeTable] at hb
  sentinel := by
    unfold EndsWithSentinel
    rfl
  flags_lt := by decide
  version_zero := by
    intro h
    exact absurd h (by decide)

theorem consecutiveTable_valid (n : Nat) (hn : n = 65536) : Valid (consecutiveTable n) where
  version_le := Or.inl rfl
  nonempty := by
    intro h
    have := congrArg List.length h
    simp [consecutiveTable] at this
    omega
  increasing := by
    intro i a b ha hb
    obtain ⟨hi, ha⟩ := List.getElem?_eq_some.mp ha
    obtain ⟨hi1, hb⟩ := List.getElem?_eq_some.mp hb
    simp only [consecutiveTable, List.getElem_map, List.getElem_range] at ha hb
    rw [← ha, ← hb]
    exact Nat.lt_succ_self i
  sentinel := by
    unfold EndsWithSentinel
    rw [List.getLast?_eq_getElem?]
    have hlen : (consecutiveTable n).gasp_ranges.length = n := by simp [consecutiveTable]
    rw [hlen]
    have hget : (consecutiveTable n).gasp_ranges[n - 1]? = some (n - 1, 0) := by
      simp only [consecutiveTable, List.getElem?_map]
      rw [List.getElem?_range (by omega)]
      rfl
    rw [hget, hn]
    rfl
  flags_lt := by
    intro r hr
    simp only [consecutiveTable, List.mem_map] at hr
    obtain ⟨i, _, rfl⟩ := hr
    exact Nat.zero_lt_succ 15
  version_zero := by
    intro _ r hr
    simp only [consecutiveTable, List.mem_map] at hr
    obtain ⟨i, _, rfl⟩ := hr
    show ¬ usesSymmetricBits 0
    decide

/-- C1, as stated, fails: the table of 65536 ranges with thresholds
0, 1, ..., 0xFFFF, flags 0 and version 0 satisfies every invariant of §3, and
`Serialize` answers Error on it, the count not fitting in 16 bits. -/
theorem Serialize_rejects_valid_table :
    Valid (consecutiveTable 65536) ∧
      ((consecutiveTable 65536).Serialize MemoryStream []).1 =
        Outcome.Error "failed to write gasp header" [] := by
  refine ⟨consecutiveTable_valid 65536 rfl, ?_⟩
  rw [Serialize_overflow _ _ _ (by simp [consecutiveTable])]

/-- C1, amended: for every table that satisfies the invariants of §3 and has at
most 65535 ranges, `Serialize` to a writer that accepts every write succeeds,
and `Parse`, run on a fresh object over the bytes written, succeeds and leaves
a table equal to the one serialised. -/
theorem Serialize_Parse_roundtrip (v0 : Nat) (t : OpenTypeGASP) (h : Valid t)
    (hlen : t.gasp_ranges.length ≤ 65535) :
    (t.Serialize MemoryStream []).1 = Outcome.success ∧
      (OpenTypeGASP.fresh v0).Parse (t.Serialize MemoryStream []).2 = (Outcome.success, t) := by
  rw [Serialize_memory t [] hlen]
  refine ⟨rfl, ?_⟩
  simp only [List.nil_append]
  have hpos : 1 ≤ t.gasp_ranges.length := by
    have := h.nonempty
    have := List.length_pos.mpr this
    omega
  have hver : headerVersion (layoutTable t) = t.version := by
    rw [headerVersion_layoutTable, Nat.mod_eq_of_lt]
    have := h.version_le
    omega
  have hnum : headerNumRanges (layoutTable t) = t.gasp_ranges.length := by
    rw [headerNumRanges_layoutTable, Nat.mod_eq_of_lt (by omega)]
  have hacc := Parse_accept v0 (layoutTable t) (by rw [layoutTable_length]; omega)
    (by rw [hver]; have := h.version_le; omega) (by rw [hnum]; exact hpos)
    (by rw [hnum]; exact fun j hj => layoutTable_passes t h hlen j hj)
  rw [hacc, hver, hnum, stateAfter_layoutTable t h]

/-- Witness of C1 (amended) on a table of two ranges. -/
theorem Serialize_Parse_roundtrip_witness :
    Valid twoRangeTable ∧ twoRangeTable.gasp_ranges.length ≤ 65535 ∧
      (twoRangeTable.Serialize MemoryStream []).1 = Outcome.success ∧
      (OpenTypeGASP.fresh 0).Parse (twoRangeTable.Serialize MemoryStream []).2 =
        (Outcome.success, twoRangeTable) :=
  ⟨twoRangeTable_valid, by decide,
    Serialize_Parse_roundtrip 0 twoRangeTable twoRangeTable_valid (by decide)⟩

/-! ## Properties of `Serialize` -/

/-- C11: serialised layout. For every table of at most 65535 ranges,
`Serialize` to a writer that accepts every write succeeds, the bytes written
are the version, the number of ranges and then, range by range, threshold and
flags, each as a big-endian 16-bit value, and they are `4 + 4 * n` bytes. -/
theorem Serialize_layout (t : OpenTypeGASP) (hlen : t.gasp_ranges.length ≤ 65535) :
    t.Serialize MemoryStream [] =
        (Outcome.success,
          be16 t.version ++ be16 t.gasp_ranges.length ++ layoutRanges t.gasp_ranges) ∧
      (t.Serialize MemoryStream []).2.length = 4 + 4 * t.gasp_ranges.length := by
  rw [Serialize_memory t [] hlen]
  simp only [List.nil_append]
  exact ⟨rfl, layoutTable_length t⟩

/-- Witness of C11 on the table of two ranges. -/
theorem Serialize_layout_witness :
    twoRangeTable.Serialize MemoryStream [] =
        (Outcome.success, [0, 1, 0, 2, 0, 10, 0, 1, 0xFF, 0xFF, 0, 15]) ∧
      (twoRangeTable.Serialize MemoryStream []).2.length = 4 + 4 * 2 :=
  Serialize_layout twoRangeTable (by decide)

theorem SerializeLoop_step {σ : Type} (t : OpenTypeGASP) (stream : OTSStream σ)
    (todo i : Nat) (out : σ) (hi : i < t.gasp_ranges.length) :
    t.SerializeLoop stream (todo + 1) i out =
      if (stream.WriteU16 out t.gasp_ranges[i].1).1 = false then
        (Outcome.Error "Failed to write gasp subtable %d" [i],
          (stream.WriteU16 out t.gasp_ranges[i].1).2)
      else if (stream.WriteU16 (stream.WriteU16 out t.gasp_ranges[i].1).2
          t.gasp_ranges[i].2).1 = false then
        (Outcome.Error "Failed to write gasp subtable %d" [i],
          (stream.WriteU16 (stream.WriteU16 out t.gasp_ranges[i].1).2 t.gasp_ranges[i].2).2)
      else
        t.SerializeLoop stream todo (i + 1)
          (stream.WriteU16 (stream.WriteU16 out t.gasp_ranges[i].1).2 t.gasp_ranges[i].2).2 := by
  rw [OpenTypeGASP.SerializeLoop, List.getElem?_eq_getElem hi]
  simp only
  rcases h1 : stream.WriteU16 out t.gasp_ranges[i].1 with ⟨b1, o1⟩
  cases b1
  · simp
  · simp only
    rcases h2 : stream.WriteU16 o1 t.gasp_ranges[i].2 with ⟨b2, o2⟩
    cases b2 <;> simp

theorem Serialize_step {σ : Type} (t : OpenTypeGASP) (stream : OTSStream σ) (out : σ)
    (hlen : t.gasp_ranges.length ≤ 65535) :
    t.Serialize stream out =
      if (stream.WriteU16 out t.version).1 = false then
        (Outcome.Error "failed to write gasp header" [], (stream.WriteU16 out t.version).2)
      else if (stream.WriteU16 (stream.WriteU16 out t.version).2
          t.gasp_ranges.length).1 = false then
        (Outcome.Error "failed to write gasp header" [],
          (stream.WriteU16 (stream.WriteU16 out t.version).2 t.gasp_ranges.length).2)
      else
        t.SerializeLoop stream t.gasp_ranges.length 0
          (stream.WriteU16 (stream.WriteU16 out t.version).2 t.gasp_ranges.length).2 := by
  have hmod : t.gasp_ranges.length % 65536 = t.gasp_ranges.length := Nat.mod_eq_of_lt (by omega)
  unfold OpenTypeGASP.Serialize
  simp only [hmod, ne_eq, not_true_eq_false, if_false]
  rcases h1 : stream.WriteU16 out t.version with ⟨b1, o1⟩
  cases b1
  · simp
  · simp only
    rcases h2 : stream.WriteU16 o1 t.gasp_ranges.length with ⟨b2, o2⟩
    cases b2 <;> simp

/-! ## The calls `Serialize` makes -/

theorem recording_fst {σ : Type} (stream : OTSStream σ) (out : σ × List (Nat × Bool))
    (v : Nat) : ((recording stream).WriteU16 out v).1 = (stream.WriteU16 out.1 v).1 := rfl

theorem recording_calls {σ : Type} (stream : OTSStream σ) (out : σ × List (Nat × Bool))
    (v : Nat) :
    ((recording stream).WriteU16 out v).2.2 = out.2 ++ [(v, (stream.WriteU16 out.1 v).1)] := rfl

theorem AbortsAtFirstFailure_accepted (outcome : Outcome) (calls : List (Nat × Bool))
    (expected v : Nat) (h : AbortsAtFirstFailure outcome calls expected) :
    AbortsAtFirstFailure outcome ((v, true) :: calls) (expected + 1) := by
  rcases h with ⟨ho, hl, hall⟩ | ⟨ho, before, w, hc, hall⟩
  · refine Or.inl ⟨ho, by simp [hl], ?_⟩
    intro c hc
    rcases List.mem_cons.mp hc with rfl | hc
    · rfl
    · exact hall c hc
  · refine Or.inr ⟨ho, (v, true) :: before, w, by simp [hc], ?_⟩
    intro c hc
    rcases List.mem_cons.mp hc with rfl | hc
    · rfl
    · exact hall c hc

theorem AbortsAtFirstFailure_rejected (format : String) (args : List Nat) (v expected : Nat) :
    AbortsAtFirstFailure (Outcome.Error format args) [(v, false)] expected :=
  Or.inr ⟨trivial, [], v, rfl, fun _ hc => absurd hc (List.not_mem_nil _)⟩

theorem SerializeLoop_recording {σ : Type} (t : OpenTypeGASP) (stream : OTSStream σ) :
    ∀ todo i (out : σ × List (Nat × Bool)), i + todo ≤ t.gasp_ranges.length →
      ∃ calls, (t.SerializeLoop (recording stream) todo i out).2.2 = out.2 ++ calls ∧
        AbortsAtFirstFailure (t.SerializeLoop (recording stream) todo i out).1 calls
          (2 * todo) := by
  intro todo
  induction todo with
  | zero =>
    intro i out _
    exact ⟨[], by simp [OpenTypeGASP.SerializeLoop],
      Or.inl ⟨rfl, rfl, fun _ hc => absurd hc (List.not_mem_nil _)⟩⟩
  | succ todo ih =>
    intro i out hi
    have hlt : i < t.gasp_ranges.length := by omega
    rw [SerializeLoop_step t (recording stream) todo i out hlt]
    by_cases h1 : ((recording stream).WriteU16 out t.gasp_ranges[i].1).1 = false
    · rw [if_pos h1]
      refine ⟨[(t.gasp_ranges[i].1, false)], ?_, AbortsAtFirstFailure_rejected _ _ _ _⟩
      rw [recording_fst] at h1
      simp only [recording_calls, h1]
    · rw [if_neg h1]
      have h1t : (stream.WriteU16 out.1 t.gasp_ranges[i].1).1 = true := by
        rw [recording_fst] at h1
        simpa using h1
      by_cases h2 : ((recording stream).WriteU16
          ((recording stream).WriteU16 out t.gasp_ranges[i].1).2 t.gasp_ranges[i].2).1 = false
      · rw [if_pos h2]
        refine ⟨[(t.gasp_ranges[i].1, true), (t.gasp_ranges[i].2, false)], ?_,
          AbortsAtFirstFailure_accepted _ _ _ _ (AbortsAtFirstFailure_rejected _ _ _ _)⟩
        rw [recording_fst] at h2
        simp only [recording_calls, h1t, h2, List.append_assoc, List.singleton_append]
      · rw [if_neg h2]
        have h2t : (stream.WriteU16 ((recording stream).WriteU16 out t.gasp_ranges[i].1).2.1
            t.gasp_ranges[i].2).1 = true := by
          rw [recording_fst] at h2
          simpa using h2
        obtain ⟨calls, hcalls, habort⟩ := ih (i + 1)
          ((recording stream).WriteU16
            ((recording stream).WriteU16 out t.gasp_ranges[i].1).2 t.gasp_ranges[i].2).2
          (by omega)
        refine ⟨(t.gasp_ranges[i].1, true) :: (t.gasp_ranges[i].2, true) :: calls, ?_, ?_⟩
        · rw [hcalls]
          simp only [recording_calls, h1t, h2t, List.append_assoc, List.singleton_append]
          rfl
        · have := AbortsAtFirstFailure_accepted _ _ _ t.gasp_ranges[i].1
            (AbortsAtFirstFailure_accepted _ _ _ t.gasp_ranges[i].2 habort)
          rwa [show 2 * todo + 1 + 1 = 2 * (todo + 1) by omega] at this

theorem AbortsAtFirstFailure_of_rejected (outcome : Outcome) (calls : List (Nat × Bool))
    (expected k v : Nat) (h : AbortsAtFirstFailure outcome calls expected)
    (hk : calls[k]? = some (v, false)) : outcome.isError ∧ calls.length = k + 1 := by
  rcases h with ⟨_, _, hall⟩ | ⟨ho, before, w, hc, hall⟩
  · have := hall (v, false) (List.mem_iff_getElem?.mpr ⟨k, hk⟩)
    exact absurd this (by simp)
  · refine ⟨ho, ?_⟩
    subst hc
    by_cases hlt : k < before.length
    · rw [List.getElem?_append_left hlt] at hk
      have := hall (v, false) (List.mem_iff_getElem?.mpr ⟨k, hk⟩)
      exact absurd this (by simp)
    · have hlen : k < (before ++ [(w, false)]).length := (List.getElem?_eq_some.mp hk).1
      simp only [List.length_append, List.length_singleton] at hlen ⊢
      omega

theorem AbortsAtFirstFailure_of_success (calls : List (Nat × Bool)) (expected : Nat)
    (h : AbortsAtFirstFailure Outcome.success calls expected) :
    calls.length = expected ∧ ∀ c ∈ calls, c.2 = true := by
  rcases h with ⟨_, hl, hall⟩ | ⟨ho, _⟩
  · exact ⟨hl, hall⟩
  · exact absurd ho (by simp [Outcome.isError])

theorem Serialize_recording {σ : Type} (t : OpenTypeGASP) (stream : OTSStream σ) (s : σ) :
    (65535 < t.gasp_ranges.length ∧
        t.Serialize (recording stream) (s, []) =
          (Outcome.Error "failed to write gasp header" [], (s, []))) ∨
      AbortsAtFirstFailure (t.Serialize (recording stream) (s, [])).1
        (t.Serialize (recording stream) (s, [])).2.2 (2 + 2 * t.gasp_ranges.length) := by
  by_cases hlen : t.gasp_ranges.length ≤ 65535
  · right
    rw [Serialize_step t (recording stream) (s, []) hlen]
    by_cases h1 : ((recording stream).WriteU16 (s, []) t.version).1 = false
    · rw [if_pos h1]
      rw [recording_fst] at h1
      simp only [recording_calls, h1, List.nil_append]
      exact AbortsAtFirstFailure_rejected _ _ _ _
    · rw [if_neg h1]
      have h1t : (stream.WriteU16 s t.version).1 = true := by
        rw [recording_fst] at h1
        simpa using h1
      by_cases h2 : ((recording stream).WriteU16
          ((recording stream).WriteU16 (s, []) t.version).2 t.gasp_ranges.length).1 = false
      · rw [if_pos h2]
        rw [recording_fst] at h2
        simp only [recording_calls, h1t, h2, List.nil_append, List.singleton_append]
        exact Or.inr ⟨trivial, [(t.version, true)], t.gasp_ranges.length, rfl, by simp⟩
      · rw [if_neg h2]
        have h2t : (stream.WriteU16 ((recording stream).WriteU16 (s, []) t.version).2.1
            t.gasp_ranges.length).1 = true := by
          rw [recording_fst] at h2
          simpa using h2
        obtain ⟨calls, hcalls, habort⟩ := SerializeLoop_recording t stream
          t.gasp_ranges.length 0
          ((recording stream).WriteU16
            ((recording stream).WriteU16 (s, []) t.version).2 t.gasp_ranges.length).2
          (by omega)
        rw [hcalls]
        simp only [recording_calls, h1t, h2t, List.nil_append, List.singleton_append,
          List.cons_append]
        have := AbortsAtFirstFailure_accepted _ _ _ t.version
          (AbortsAtFirstFailure_accepted _ _ _ t.gasp_ranges.length habort)
        rwa [show 2 * t.gasp_ranges.length + 1 + 1 = 2 + 2 * t.gasp_ranges.length by omega]
          at this
  · left
    exact ⟨by omega, Serialize_overflow t _ _ (by omega)⟩

/-- C12: abort on first write failure. For every table and every writer, with
the calls of `WriteU16` recorded: a call that is rejected is the last call
`Serialize` makes, and `Serialize` then returns Error; and `Serialize` returns
success only after `2 + 2 * n` calls that were all accepted. -/
theorem Serialize_aborts_on_first_failure {σ : Type} (t : OpenTypeGASP)
    (stream : OTSStream σ) (s : σ) :
    (∀ k v, (t.Serialize (recording stream) (s, [])).2.2[k]? = some (v, false) →
        (t.Serialize (recording stream) (s, [])).1.isError ∧
          (t.Serialize (recording stream) (s, [])).2.2.length = k + 1) ∧
      ((t.Serialize (recording stream) (s, [])).1 = Outcome.success →
        (t.Serialize (recording stream) (s, [])).2.2.length = 2 + 2 * t.gasp_ranges.length ∧
          ∀ c ∈ (t.Serialize (recording stream) (s, [])).2.2, c.2 = true) := by
  rcases Serialize_recording t stream s with ⟨_, hover⟩ | habort
  · rw [hover]
    exact ⟨fun k v hk => absurd hk (by simp), fun h => absurd h (by simp)⟩
  · refine ⟨fun k v hk => AbortsAtFirstFailure_of_rejected _ _ _ k v habort hk, fun h => ?_⟩
    rw [h] at habort
    exact AbortsAtFirstFailure_of_success _ _ habort

/-- Witness of C12: the table of two ranges written to a stream that accepts
three calls; the fourth call is rejected and is the last one. -/
theorem Serialize_aborts_on_first_failure_witness :
    twoRangeTable.Serialize (recording (LimitedStream 3)) (0, []) =
        (Outcome.Error "Failed to write gasp subtable %d" [0],
          (3, [(1, true), (2, true), (10, true), (1, false)])) ∧
      ((twoRangeTable.Serialize (recording (LimitedStream 3)) (0, [])).1.isError ∧
        (twoRangeTable.Serialize (recording (LimitedStream 3)) (0, [])).2.2.length = 3 + 1) :=
  ⟨by decide,
    (Serialize_aborts_on_first_failure twoRangeTable (LimitedStream 3) 0).1 3 1 (by decide)⟩

/-- C13: range-count overflow. For every table of more than 65535 ranges and
every writer, `Serialize` returns Error, no call of `WriteU16` is made and the
writer is left as it was. -/
theorem Serialize_overflow_error {σ : Type} (t : OpenTypeGASP) (stream : OTSStream σ) (s : σ)
    (h : 65535 < t.gasp_ranges.length) :
    (t.Serialize (recording stream) (s, [])).1.isError ∧
      (t.Serialize (recording stream) (s, [])).2 = (s, []) := by
  rw [Serialize_overflow t _ _ h]
  exact ⟨trivial, rfl⟩

/-- Witness of C13: the table of 65536 ranges. -/
theorem Serialize_overflow_error_witness :
    ((consecutiveTable 65536).Serialize (recording MemoryStream) ([], [])).1.isError ∧
      ((consecutiveTable 65536).Serialize (recording MemoryStream) ([], [])).2 = ([], []) :=
  Serialize_overflow_error (consecutiveTable 65536) MemoryStream []
    (by simp [consecutiveTable])

/-! ## Properties of the hooks -/

/-- C15, as stated, fails: `other` owns the table of two ranges at address 0
and `font` is made an alias of it; `ots_gasp_free` on `font` deletes that very
object, after which no table is reached from `other` and serialising `other`
is a use of a deleted object, although its pointer is still not null. -/
theorem ots_gasp_free_destroys_shared_table :
    tableOf [some twoRangeTable] ⟨some 0, false⟩ = some twoRangeTable ∧
      ots_gasp_free [some twoRangeTable] (ots_gasp_reuse ⟨none, false⟩ ⟨some 0, false⟩) =
        some [none] ∧
      tableOf [none] ⟨some 0, false⟩ = none ∧
      ots_gasp_should_serialise ⟨some 0, false⟩ = true ∧
      ots_gasp_serialise MemoryStream [] [none] ⟨some 0, false⟩ = none := by
  decide

/-- C15, amended: where `other` points to a live table at address `a`,
`ots_gasp_reuse` makes `font` point to the same object and sets its flag
`gasp_reused`; `ots_gasp_free` on that alias deletes the object at `a`, so
that no table is reached from `other` any more; and `ots_gasp_free` on a font
whose pointer is not `a` leaves the table of `other` in place and unchanged,
and serialising `other` gives what it gave before. -/
theorem ots_gasp_free_frame (σ : Type) (heap : Heap) (font other : Font) (a : Nat)
    (t : OpenTypeGASP) (hother : other.gasp = some a) (hlive : heap.getD a none = some t) :
    (ots_gasp_reuse font other).gasp = other.gasp ∧
      (ots_gasp_reuse font other).gasp_reused = true ∧
      ots_gasp_free heap (ots_gasp_reuse font other) = some (heap.set a none) ∧
      tableOf (heap.set a none) other = none ∧
      ∀ (third : Font) (heap' : Heap), third.gasp ≠ some a →
        ots_gasp_free heap third = some heap' →
        tableOf heap' other = some t ∧
          ∀ (stream : OTSStream σ) (out : σ),
            ots_gasp_serialise stream out heap' other =
              ots_gasp_serialise stream out heap other := by
  have hbefore : tableOf heap other = some t := by
    simp only [tableOf, hother, hlive]
  refine ⟨rfl, rfl, ?_, ?_, ?_⟩
  · simp only [ots_gasp_free, ots_gasp_reuse, hother, hlive]
  · simp only [tableOf, hother, List.getD_eq_getElem?_getD, List.getElem?_set]
    split_ifs <;> simp
  · intro third heap' hne hfree
    have hafter : tableOf heap' other = some t := by
      unfold ots_gasp_free at hfree
      cases hg : third.gasp with
      | none =>
        rw [hg] at hfree
        simp only [Option.some.injEq] at hfree
        rw [← hfree]
        exact hbefore
      | some b =>
        rw [hg] at hfree
        simp only at hfree
        cases hb : heap.getD b none with
        | none =>
          rw [hb] at hfree
          exact absurd hfree (by simp)
        | some u =>
          rw [hb] at hfree
          simp only [Option.some.injEq] at hfree
          rw [← hfree]
          have hba : b ≠ a := fun h => hne (by rw [hg, h])
          simp only [tableOf, hother, List.getD_eq_getElem?_getD, List.getElem?_set, hba,
            if_false]
          rw [← List.getD_eq_getElem?_getD]
          exact hlive
    refine ⟨hafter, fun stream out => ?_⟩
    simp only [ots_gasp_serialise, hafter, hbefore]

/-- Witness of C15 (amended): `other` owns the table of two ranges at address
0, and a third font that owns the object at address 1 is released. -/
theorem ots_gasp_free_frame_witness :
    ots_gasp_free [some twoRangeTable, some (consecutiveTable 1)]
        (ots_gasp_reuse ⟨none, false⟩ ⟨some 0, false⟩) =
        some ([some twoRangeTable, some (consecutiveTable 1)].set 0 none) ∧
      tableOf [some twoRangeTable, none] ⟨some 0, false⟩ = some twoRangeTable :=
  ⟨(ots_gasp_free_frame (List Byte) [some twoRangeTable, some (consecutiveTable 1)]
      ⟨none, false⟩ ⟨some 0, false⟩ 0 twoRangeTable rfl rfl).2.2.1,
    ((ots_gasp_free_frame (List Byte) [some twoRangeTable, some (consecutiveTable 1)]
      ⟨none, false⟩ ⟨some 0, false⟩ 0 twoRangeTable rfl rfl).2.2.2.2
        ⟨some 1, false⟩ [some twoRangeTable, none] (by decide) (by decide)).1⟩

/-! ## Further properties of `Parse` -/

theorem rejection_unsorted (data : List Byte) (j : Nat) (hr : Readable data j)
    (ho : ¬ Ordered data j) : rejection data j = Outcome.Drop "ranges are not sorted" [] := by
  unfold rejection
  rw [if_neg (not_not.mpr hr), if_pos ho]

/-- C16: order of the checks within one range. With header version at most 1
and `numRanges` at least 2, all ranges present, the ranges before the last
strictly increasing, and the last threshold both not above the one before it
and different from 0xFFFF, `Parse` returns Drop with the message of the
ordering check, not the one of the sentinel check. -/
theorem Parse_unsorted_before_sentinel (v0 : Nat) (data : List Byte)
    (hv : headerVersion data ≤ 1) (hn : 2 ≤ headerNumRanges data)
    (hpresent : 4 + 4 * headerNumRanges data ≤ data.length)
    (hinc : ∀ i, i + 1 < headerNumRanges data - 1 →
      thresholdAt data i < thresholdAt data (i + 1))
    (hle : thresholdAt data (headerNumRanges data - 1) ≤
      thresholdAt data (headerNumRanges data - 2))
    (_hne : thresholdAt data (headerNumRanges data - 1) ≠ 0xFFFF) :
    ((OpenTypeGASP.fresh v0).Parse data).1 = Outcome.Drop "ranges are not sorted" [] := by
  have hbefore : ∀ k, k < headerNumRanges data - 1 → Passes data (headerNumRanges data) k := by
    intro k hk
    refine ⟨?_, ?_, ?_⟩
    · unfold Readable; omega
    · intro hpos
      have := hinc (k - 1) (by omega)
      rwa [show k - 1 + 1 = k by omega] at this
    · intro hk1
      omega
  have hread : Readable data (headerNumRanges data - 1) := by unfold Readable; omega
  have hunsorted : ¬ Ordered data (headerNumRanges data - 1) := by
    intro ho
    have := ho (by omega)
    rw [show headerNumRanges data - 1 - 1 = headerNumRanges data - 2 by omega] at this
    omega
  rw [Parse_reject v0 (headerNumRanges data - 1) data (by omega) hv (by omega) hbefore
    (fun hp => hunsorted hp.2.1)]
  exact rejection_unsorted data _ hread hunsorted

/-- Witness of C16: two ranges with thresholds 10 and 5. -/
theorem Parse_unsorted_before_sentinel_witness :
    thresholdAt [0, 0, 0, 2, 0, 10, 0, 1, 0, 5, 0, 2] 1 ≠ 0xFFFF ∧
      ((OpenTypeGASP.fresh 0).Parse [0, 0, 0, 2, 0, 10, 0, 1, 0, 5, 0, 2]).1 =
        Outcome.Drop "ranges are not sorted" [] :=
  ⟨by decide,
    Parse_unsorted_before_sentinel 0 [0, 0, 0, 2, 0, 10, 0, 1, 0, 5, 0, 2] (by decide)
      (by decide) (by decide)
      (by
        intro i hi
        have hi2 : i + 1 < 2 - 1 := hi
        omega)
      (by decide) (by decide)⟩

/-! ## A second pass over a parsed table -/

theorem threshold_lt_of_sentinel (rs : List (Nat × Nat)) (hinc : StrictlyIncreasing rs)
    (hs : EndsWithSentinel rs) (j : Nat) (r : Nat × Nat) (hr : rs[j]? = some r) :
    r.1 < 65536 := by
  have hlt : j < rs.length := (List.getElem?_eq_some.mp hr).1
  unfold EndsWithSentinel at hs
  rw [List.getLast?_eq_getElem?] at hs
  have hlast := List.getElem?_eq_getElem (show rs.length - 1 < rs.length by omega)
  rw [hlast] at hs
  simp only [Option.map_some', Option.some.injEq] at hs
  have := StrictlyIncreasing_add_le _ hinc (rs.length - 1 - j) j r _ hr
    (by rw [show j + (rs.length - 1 - j) = rs.length - 1 by omega]
        exact hlast)
  omega

theorem stateAfter_increasing (v : Nat) (data : List Byte) (n : Nat)
    (hall : ∀ j, j < n → Passes data n j) :
    StrictlyIncreasing (stateAfter v data n).gasp_ranges := by
  intro i a b ha hb
  have hlt : i + 1 < n := by
    obtain ⟨hlt, _⟩ := List.getElem?_eq_some.mp hb
    rwa [stateAfter_length] at hlt
  rw [stateAfter_getElem? _ data _ i (by omega)] at ha
  rw [stateAfter_getElem? _ data _ (i + 1) hlt] at hb
  rw [← Option.some.inj ha, ← Option.some.inj hb]
  exact (hall (i + 1) hlt).2.1 (by omega)

theorem stateAfter_sentinel (v : Nat) (data : List Byte) (n : Nat) (hn : 1 ≤ n)
    (hall : ∀ j, j < n → Passes data n j) :
    EndsWithSentinel (stateAfter v data n).gasp_ranges := by
  unfold EndsWithSentinel
  rw [List.getLast?_eq_getElem?, stateAfter_length,
    stateAfter_getElem? _ data _ (n - 1) (by omega)]
  have := (hall (n - 1) (by omega)).2.2 (by omega)
  simp [this]

theorem storedBehavior_idem (b : Nat) : storedBehavior (storedBehavior b) = storedBehavior b := by
  by_cases h : b >>> 8 ≠ 0
  · have hs : storedBehavior b = b &&& 0x000f := by
      unfold storedBehavior
      rw [if_pos h]
    rw [hs]
    have hle : b &&& 0x000f ≤ 0x000f := Nat.and_le_right
    exact storedBehavior_of_lt _ (by omega)
  · have hs : storedBehavior b = b := by
      unfold storedBehavior
      rw [if_neg h]
    rw [hs, hs]

theorem storedBehavior_le (b : Nat) : storedBehavior b ≤ b := by
  unfold storedBehavior
  split_ifs
  · exact Nat.and_le_left
  · exact Nat.le_refl b

theorem stateAfter_settled (v : Nat) (data : List Byte) (n : Nat) (hv : v ≤ 1) (hn : 1 ≤ n)
    (hn16 : n ≤ 65535) (hall : ∀ j, j < n → Passes data n j) :
    Settled (stateAfter v data n) where
  version_le := stateAfter_version_le_one v data n hv
  nonempty := by
    intro hnil
    have hlen := stateAfter_length v data n
    rw [hnil] at hlen
    simp at hlen
    omega
  length_le := by rw [stateAfter_length]; exact hn16
  increasing := stateAfter_increasing v data n hall
  sentinel := stateAfter_sentinel v data n hn hall
  flags_fixed := by
    intro r hr
    obtain ⟨j, _, rfl⟩ := stateAfter_mem v data n r hr
    refine ⟨?_, storedBehavior_idem _⟩
    have h1 := storedBehavior_le (behaviorAt data j)
    have h2 := u16At_lt data (6 + 4 * j)
    unfold behaviorAt at h1
    show storedBehavior (u16At data (6 + 4 * j)) < 65536
    omega
  version_fixed := by
    intro hzero r hr
    obtain ⟨j, hj, rfl⟩ := stateAfter_mem v data n r hr
    exact (stateAfter_version_zero v data n hzero).2 j hj

theorem Settled_fields {t : OpenTypeGASP} (h : Settled t) (j : Nat) (r : Nat × Nat)
    (hr : t.gasp_ranges[j]? = some r) :
    thresholdAt (layoutTable t) j = r.1 ∧
      storedBehavior (behaviorAt (layoutTable t) j) = r.2 := by
  have hmem : r ∈ t.gasp_ranges := List.mem_iff_getElem?.mpr ⟨j, hr⟩
  obtain ⟨h16, hfix⟩ := h.flags_fixed r hmem
  rw [thresholdAt_layoutTable t j r hr, behaviorAt_layoutTable t j r hr,
    Nat.mod_eq_of_lt (threshold_lt_of_sentinel _ h.increasing h.sentinel j r hr),
    Nat.mod_eq_of_lt h16]
  exact ⟨rfl, hfix⟩

theorem Settled_stateAfter {t : OpenTypeGASP} (h : Settled t) :
    stateAfter t.version (layoutTable t) t.gasp_ranges.length = t := by
  have hver : (stateAfter t.version (layoutTable t) t.gasp_ranges.length).version =
      t.version := by
    apply stateAfter_version_keep
    intro hv j hj
    have hr := List.getElem?_eq_getElem hj
    rw [(Settled_fields h j _ hr).2]
    exact h.version_fixed hv _ (List.getElem_mem hj)
  have hranges : (stateAfter t.version (layoutTable t) t.gasp_ranges.length).gasp_ranges =
      t.gasp_ranges := by
    apply List.ext_getElem?
    intro j
    by_cases hj : j < t.gasp_ranges.length
    · have hr := List.getElem?_eq_getElem hj
      rw [stateAfter_getElem? _ _ _ j hj, hr, (Settled_fields h j _ hr).1, (Settled_fields h j _ hr).2]
    · rw [List.getElem?_eq_none (by rw [stateAfter_length]; omega),
        List.getElem?_eq_none (by omega)]
  cases t with
  | mk version gasp_ranges =>
    simp only at hver hranges
    generalize stateAfter version
      (layoutTable { version := version, gasp_ranges := gasp_ranges }) gasp_ranges.length = s
      at hver hranges
    cases s
    simp only at hver hranges
    rw [hver, hranges]

theorem Settled_passes {t : OpenTypeGASP} (h : Settled t) (j : Nat)
    (hj : j < t.gasp_ranges.length) :
    Passes (layoutTable t) t.gasp_ranges.length j := by
  have hsome : ∀ k (hk : k < t.gasp_ranges.length),
      thresholdAt (layoutTable t) k = t.gasp_ranges[k].1 := by
    intro k hk
    exact (Settled_fields h k _ (List.getElem?_eq_getElem hk)).1
  refine ⟨?_, ?_, ?_⟩
  · unfold Readable
    rw [layoutTable_length]
    omega
  · intro hpos
    rw [hsome (j - 1) (by omega), hsome j hj]
    have h2 : t.gasp_ranges[j - 1 + 1]? = some t.gasp_ranges[j] := by
      rw [← List.getElem?_eq_getElem hj]
      congr 1
      omega
    exact h.increasing (j - 1) _ _ (List.getElem?_eq_getElem (by omega)) h2
  · intro hj1
    rw [hsome j hj]
    have hs := h.sentinel
    unfold EndsWithSentinel at hs
    rw [List.getLast?_eq_getElem?] at hs
    have hidx : t.gasp_ranges[t.gasp_ranges.length - 1]? = some t.gasp_ranges[j] := by
      rw [← List.getElem?_eq_getElem hj]
      congr 1
      omega
    rw [hidx] at hs
    simpa using hs

theorem Settled_Parse_layoutTable {t : OpenTypeGASP} (h : Settled t) (v0 : Nat) :
    (OpenTypeGASP.fresh v0).Parse (layoutTable t) = (Outcome.success, t) := by
  have hlen := h.length_le
  have hpos : 1 ≤ t.gasp_ranges.length := by
    have := List.length_pos.mpr h.nonempty
    omega
  have hver : headerVersion (layoutTable t) = t.version := by
    rw [headerVersion_layoutTable, Nat.mod_eq_of_lt]
    have := h.version_le
    omega
  have hnum : headerNumRanges (layoutTable t) = t.gasp_ranges.length := by
    rw [headerNumRanges_layoutTable, Nat.mod_eq_of_lt (by omega)]
  have hacc := Parse_accept v0 (layoutTable t) (by rw [layoutTable_length]; omega)
    (by rw [hver]; exact h.version_le) (by rw [hnum]; exact hpos)
    (by rw [hnum]; exact fun j hj => Settled_passes h j hj)
  rw [hacc, hver, hnum, Settled_stateAfter h]

/-- C17: sanitisation is idempotent. Whenever `Parse`, run on a fresh object,
succeeds and leaves the table `t`, `Serialize` of `t` to a writer that accepts
every write succeeds, and `Parse`, run on a fresh object over the bytes
written, succeeds and leaves exactly `t`. -/
theorem Parse_Serialize_Parse (v0 v1 : Nat) (data : List Byte)
    (h : ((OpenTypeGASP.fresh v0).Parse data).1 = Outcome.success) :
    (((OpenTypeGASP.fresh v0).Parse data).2.Serialize MemoryStream []).1 = Outcome.success ∧
      (OpenTypeGASP.fresh v1).Parse
          (((OpenTypeGASP.fresh v0).Parse data).2.Serialize MemoryStream []).2 =
        (Outcome.success, ((OpenTypeGASP.fresh v0).Parse data).2) := by
  obtain ⟨_, hv, hn, hall, heq⟩ := Parse_success_inv v0 data h
  have hn16 : headerNumRanges data ≤ 65535 := by
    have := u16At_lt data 2
    unfold headerNumRanges
    omega
  have hsettled := stateAfter_settled (headerVersion data) data (headerNumRanges data) hv hn
    hn16 hall
  rw [heq]
  simp only
  rw [Serialize_memory _ [] hsettled.length_le]
  simp only [List.nil_append, true_and]
  exact Settled_Parse_layoutTable hsettled v1

/-- Witness of C17: a table whose flags 0x0013 keep the reserved bit 4 and
raise the version to 1 on the first pass is returned as it is by a second
pass. -/
theorem Parse_Serialize_Parse_witness :
    ((OpenTypeGASP.fresh 0).Parse [0, 0, 0, 1, 0xFF, 0xFF, 0x00, 0x13]).2 =
        { version := 1, gasp_ranges := [(0xFFFF, 0x0013)] } ∧
      ((((OpenTypeGASP.fresh 0).Parse
          [0, 0, 0, 1, 0xFF, 0xFF, 0x00, 0x13]).2.Serialize MemoryStream []).1 =
          Outcome.success ∧
        (OpenTypeGASP.fresh 0).Parse
            (((OpenTypeGASP.fresh 0).Parse
              [0, 0, 0, 1, 0xFF, 0xFF, 0x00, 0x13]).2.Serialize MemoryStream []).2 =
          (Outcome.success,
            ((OpenTypeGASP.fresh 0).Parse [0, 0, 0, 1, 0xFF, 0xFF, 0x00, 0x13]).2)) :=
  ⟨by decide,
    Parse_Serialize_Parse 0 0 [0, 0, 0, 1, 0xFF, 0xFF, 0x00, 0x13] (by decide)⟩

/-! ## Bytes that are already in canonical form -/

theorem be16_u16 (a b : Byte) : be16 (a.val * 256 + b.val) = [a, b] := by
  have ha := a.isLt
  have hb := b.isLt
  have h1 : (a.val * 256 + b.val) / 256 % 256 = a.val := by omega
  have h2 : (a.val * 256 + b.val) % 256 = b.val := by omega
  unfold be16
  congr 1
  · exact Fin.ext h1
  · congr 1
    exact Fin.ext h2

theorem u16At_cons4 (a b c d : Byte) (rest : List Byte) (off : Nat) :
    u16At (a :: b :: c :: d :: rest) (off + 4) = u16At rest off := by
  have := u16At_append_right [a, b, c, d] rest (off + 4) (by simp)
  simpa using this

theorem layoutRanges_eq_of_fields :
    ∀ (rs : List (Nat × Nat)) (l : List Byte), l.length = 4 * rs.length →
      (∀ j r, rs[j]? = some r → u16At l (4 * j) = r.1 ∧ u16At l (4 * j + 2) = r.2) →
      layoutRanges rs = l := by
  intro rs
  induction rs with
  | nil =>
    intro l hl _
    have : l = [] := List.length_eq_zero.mp (by simpa using hl)
    rw [this]
    rfl
  | cons r rs ih =>
    intro l hl hf
    match l, hl with
    | a :: b :: c :: d :: rest, hl =>
      have h0 := hf 0 r (List.getElem?_cons_zero)
      have e1 : u16At (a :: b :: c :: d :: rest) (4 * 0) = a.val * 256 + b.val := rfl
      have e2 : u16At (a :: b :: c :: d :: rest) (4 * 0 + 2) = c.val * 256 + d.val := rfl
      rw [e1, e2] at h0
      have hrest : layoutRanges rs = rest := by
        apply ih rest
        · simp only [List.length_cons] at hl
          omega
        · intro j r' hr'
          have := hf (j + 1) r' (by simpa using hr')
          rw [show 4 * (j + 1) = 4 * j + 4 by omega,
            show 4 * j + 4 + 2 = (4 * j + 2) + 4 by omega,
            u16At_cons4, u16At_cons4] at this
          exact this
      simp only [layoutRanges]
      rw [← h0.1, ← h0.2, be16_u16, be16_u16, hrest]
      rfl
    | [], hl => simp at hl
    | [_], hl => simp at hl; omega
    | [_, _], hl => simp at hl; omega
    | [_, _, _], hl => simp at hl; omega

theorem layoutTable_stateAfter_eq (data : List Byte)
    (hlen : data.length = 4 + 4 * headerNumRanges data)
    (hflags : ∀ i, i < headerNumRanges data → behaviorAt data i < 16)
    (hver : headerVersion data = 0 → ∀ i, i < headerNumRanges data →
      ¬ usesSymmetricBits (behaviorAt data i)) :
    layoutTable (stateAfter (headerVersion data) data (headerNumRanges data)) = data := by
  have hversion : (stateAfter (headerVersion data) data (headerNumRanges data)).version =
      headerVersion data := by
    apply stateAfter_version_keep
    intro hv j hj
    rw [storedBehavior_of_lt _ (hflags j hj)]
    exact shiftRight_two_of_not_uses _ (hflags j hj) (hver hv j hj)
  unfold layoutTable
  rw [hversion, stateAfter_length]
  match data, hlen, hflags with
  | a :: b :: c :: d :: rest, hlen, hflags =>
    have e1 : headerVersion (a :: b :: c :: d :: rest) = a.val * 256 + b.val := rfl
    have e2 : headerNumRanges (a :: b :: c :: d :: rest) = c.val * 256 + d.val := rfl
    have hbody : layoutRanges (stateAfter (headerVersion (a :: b :: c :: d :: rest))
        (a :: b :: c :: d :: rest) (headerNumRanges (a :: b :: c :: d :: rest))).gasp_ranges =
        rest := by
      apply layoutRanges_eq_of_fields
      · rw [stateAfter_length]
        simp only [List.length_cons] at hlen
        omega
      · intro j r hr
        have hj : j < headerNumRanges (a :: b :: c :: d :: rest) := by
          obtain ⟨hj, _⟩ := List.getElem?_eq_some.mp hr
          rwa [stateAfter_length] at hj
        rw [stateAfter_getElem? _ _ _ j hj] at hr
        rw [← Option.some.inj hr, storedBehavior_of_lt _ (hflags j hj)]
        constructor
        · rw [thresholdAt, show 4 + 4 * j = 4 * j + 4 by omega, u16At_cons4]
        · rw [behaviorAt, show 6 + 4 * j = (4 * j + 2) + 4 by omega, u16At_cons4]
    rw [hbody, e1, e2, be16_u16, be16_u16]
    rfl
  | [], hlen, _ => simp only [List.length_nil] at hlen; omega
  | [_], hlen, _ => simp only [List.length_cons, List.length_nil] at hlen; omega
  | [_, _], hlen, _ => simp only [List.length_cons, List.length_nil] at hlen; omega
  | [_, _, _], hlen, _ => simp only [List.length_cons, List.length_nil] at hlen; omega

/-- C18: identity on bytes already in canonical form. For every input of
length exactly `4 + 4 * numRanges` on which `Parse`, run on a fresh object,
succeeds, if no input flags have a bit above bit 3 set and either the header
version is 1 or no input flags have bit 2 or bit 3 set, then `Serialize` of
the parsed table to a writer that accepts every write emits exactly the
input. -/
theorem Parse_Serialize_identity (v0 : Nat) (data : List Byte)
    (hlen : data.length = 4 + 4 * headerNumRanges data)
    (h : ((OpenTypeGASP.fresh v0).Parse data).1 = Outcome.success)
    (hflags : ∀ i, i < headerNumRanges data → behaviorAt data i < 16)
    (hver : headerVersion data = 1 ∨
      ∀ i, i < headerNumRanges data → ¬ usesSymmetricBits (behaviorAt data i)) :
    ((OpenTypeGASP.fresh v0).Parse data).2.Serialize MemoryStream [] =
      (Outcome.success, data) := by
  obtain ⟨_, _, _, _, heq⟩ := Parse_success_inv v0 data h
  have hn16 : headerNumRanges data ≤ 65535 := by
    have := u16At_lt data 2
    unfold headerNumRanges
    omega
  rw [heq]
  simp only
  rw [Serialize_memory _ [] (by rw [stateAfter_length]; exact hn16)]
  simp only [List.nil_append]
  rw [layoutTable_stateAfter_eq data hlen hflags]
  intro hzero
  rcases hver with hone | hnone
  · omega
  · exact hnone

/-- Witness of C18: a table of two ranges under version 1 with all four flag
bits of version 1 in use. -/
theorem Parse_Serialize_identity_witness :
    ((OpenTypeGASP.fresh 0).Parse
        [0, 1, 0, 2, 0, 10, 0, 1, 0xFF, 0xFF, 0, 15]).2.Serialize MemoryStream [] =
      (Outcome.success, [0, 1, 0, 2, 0, 10, 0, 1, 0xFF, 0xFF, 0, 15]) :=
  Parse_Serialize_identity 0 [0, 1, 0, 2, 0, 10, 0, 1, 0xFF, 0xFF, 0, 15] (by decide)
    (by decide)
    (by
      intro i hi
      have hi2 : i < 2 := hi
      interval_cases i <;> decide)
    (Or.inl (by decide))

/-! ## Bytes after the table -/

theorem u16At_append_left (l e : List Byte) (off : Nat) (h : off + 2 ≤ l.length) :
    u16At (l ++ e) off = u16At l off := by
  unfold u16At
  rw [List.getD_append _ _ _ _ (by omega), List.getD_append _ _ _ _ (by omega)]

theorem headerVersion_append (b e : List Byte) (h : 4 ≤ b.length) :
    headerVersion (b ++ e) = headerVersion b :=
  u16At_append_left b e 0 (by omega)

theorem headerNumRanges_append (b e : List Byte) (h : 4 ≤ b.length) :
    headerNumRanges (b ++ e) = headerNumRanges b :=
  u16At_append_left b e 2 (by omega)

theorem thresholdAt_append (b e : List Byte) (j : Nat) (h : 4 + 4 * j + 2 ≤ b.length) :
    thresholdAt (b ++ e) j = thresholdAt b j :=
  u16At_append_left b e (4 + 4 * j) h

theorem behaviorAt_append (b e : List Byte) (j : Nat) (h : Readable b j) :
    behaviorAt (b ++ e) j = behaviorAt b j :=
  u16At_append_left b e (6 + 4 * j) (by unfold Readable at h; omega)

theorem Readable_append (b e : List Byte) (j : Nat) (h : Readable b j) :
    Readable (b ++ e) j := by
  unfold Readable at h ⊢
  rw [List.length_append]
  omega

theorem Ordered_append (b e : List Byte) (j : Nat) (h : Readable b j) :
    Ordered (b ++ e) j ↔ Ordered b j := by
  unfold Readable at h
  unfold Ordered
  constructor
  · intro ho hpos
    have := ho hpos
    rwa [thresholdAt_append b e (j - 1) (by omega), thresholdAt_append b e j (by omega)]
      at this
  · intro ho hpos
    rw [thresholdAt_append b e (j - 1) (by omega), thresholdAt_append b e j (by omega)]
    exact ho hpos

theorem SentinelOk_append (b e : List Byte) (n j : Nat) (h : Readable b j) :
    SentinelOk (b ++ e) n j ↔ SentinelOk b n j := by
  unfold Readable at h
  unfold SentinelOk
  rw [thresholdAt_append b e j (by omega)]

theorem Passes_append (b e : List Byte) (n j : Nat) (h : Readable b j) :
    Passes (b ++ e) n j ↔ Passes b n j := by
  unfold Passes
  rw [Ordered_append b e j h, SentinelOk_append b e n j h]
  constructor
  · rintro ⟨_, ho, hs⟩
    exact ⟨h, ho, hs⟩
  · rintro ⟨_, ho, hs⟩
    exact ⟨Readable_append b e j h, ho, hs⟩

theorem rejection_append (b e : List Byte) (j : Nat) (h : Readable b j) :
    rejection (b ++ e) j = rejection b j := by
  unfold rejection
  rw [if_neg (not_not.mpr (Readable_append b e j h)), if_neg (not_not.mpr h)]
  by_cases ho : Ordered b j
  · rw [if_neg (not_not.mpr ho), if_neg (not_not.mpr ((Ordered_append b e j h).mpr ho))]
  · rw [if_pos ho, if_pos (fun hc => ho ((Ordered_append b e j h).mp hc))]

theorem stateAfter_append (v : Nat) (b e : List Byte) (i : Nat)
    (h : ∀ j, j < i → Readable b j) : stateAfter v (b ++ e) i = stateAfter v b i := by
  induction i with
  | zero => rfl
  | succ i ih =>
    have hi := h i (Nat.lt_succ_self i)
    have hthr : thresholdAt (b ++ e) i = thresholdAt b i :=
      thresholdAt_append b e i (by unfold Readable at hi; omega)
    simp only [stateAfter, ih (fun j hj => h j (by omega)), hthr, behaviorAt_append b e i hi]

theorem Parse_append (v0 : Nat) (b e : List Byte)
    (h : ((OpenTypeGASP.fresh v0).Parse b).1 = Outcome.success ∨
      ((OpenTypeGASP.fresh v0).Parse b).1.isDrop) :
    (OpenTypeGASP.fresh v0).Parse (b ++ e) = (OpenTypeGASP.fresh v0).Parse b := by
  by_cases hlen : 4 ≤ b.length
  · have hlen2 : 4 ≤ (b ++ e).length := by rw [List.length_append]; omega
    have hver := headerVersion_append b e hlen
    have hnum := headerNumRanges_append b e hlen
    by_cases hv : headerVersion b ≤ 1
    · by_cases hn : 1 ≤ headerNumRanges b
      · rcases all_pass_or_first_fail b (headerNumRanges b) with
          hall | ⟨j, hj, hfail, hbefore⟩
        · rw [Parse_accept v0 b hlen hv hn hall,
            Parse_accept v0 (b ++ e) hlen2 (by rw [hver]; exact hv) (by rw [hnum]; exact hn)
              (by rw [hnum]; exact fun k hk => (Passes_append b e _ k (hall k hk).1).mpr (hall k hk)),
            hver, hnum, stateAfter_append _ b e _ (fun k hk => (hall k hk).1)]
        · have hread : Readable b j := by
            by_contra hunread
            rw [Parse_reject v0 j b hlen hv hj hbefore hfail,
              rejection_isError b j hunread] at h
            rcases h with h | h
            · exact absurd h (by simp)
            · exact h
          rw [Parse_reject v0 j b hlen hv hj hbefore hfail,
            Parse_reject v0 j (b ++ e) hlen2 (by rw [hver]; exact hv) (by rw [hnum]; exact hj)
              (by rw [hnum]
                  exact fun k hk => (Passes_append b e _ k (hbefore k hk).1).mpr (hbefore k hk))
              (by rw [hnum]
                  exact fun hp => hfail ((Passes_append b e _ j hread).mp hp)),
            hver, rejection_append b e j hread,
            stateAfter_append _ b e _ (fun k hk => (hbefore k hk).1)]
      · rw [Parse_header v0 b hlen, Parse_header v0 (b ++ e) hlen2, hver, hnum,
          if_neg (by omega), if_pos (by omega), if_neg (by omega), if_pos (by omega)]
        rfl
    · rw [Parse_header v0 b hlen, Parse_header v0 (b ++ e) hlen2, hver,
        if_pos (by omega), if_pos (by omega)]
      rfl
  · rw [Parse_short _ b (by omega)] at h
    rcases h with h | h
    · exact absurd h (by simp)
    · exact absurd h (by simp [Outcome.isDrop])

theorem Parse_of_complete (v0 : Nat) (data : List Byte)
    (h : 4 + 4 * headerNumRanges data ≤ data.length) :
    ((OpenTypeGASP.fresh v0).Parse data).1 = Outcome.success ∨
      ((OpenTypeGASP.fresh v0).Parse data).1.isDrop := by
  have hlen : 4 ≤ data.length := by omega
  by_cases hv : headerVersion data ≤ 1
  · by_cases hn : 1 ≤ headerNumRanges data
    · rcases all_pass_or_first_fail data (headerNumRanges data) with
        hall | ⟨j, hj, hfail, hbefore⟩
      · left
        rw [Parse_accept v0 data hlen hv hn hall]
      · right
        rw [Parse_reject v0 j data hlen hv hj hbefore hfail]
        exact rejection_isDrop data j (by unfold Readable; omega)
    · right
      rw [Parse_header v0 data hlen, if_neg (by omega), if_pos (by omega)]
      exact trivial
  · right
    rw [Parse_header v0 data hlen, if_pos (by omega)]
    exact trivial

theorem Parse_take (v0 : Nat) (b : List Byte) :
    (OpenTypeGASP.fresh v0).Parse b =
      (OpenTypeGASP.fresh v0).Parse (b.take (4 + 4 * headerNumRanges b)) := by
  by_cases hle : b.length ≤ 4 + 4 * headerNumRanges b
  · rw [List.take_of_length_le hle]
  · have hsplit := List.take_append_drop (4 + 4 * headerNumRanges b) b
    have hlen : (b.take (4 + 4 * headerNumRanges b)).length = 4 + 4 * headerNumRanges b := by
      rw [List.length_take]
      omega
    have hnum : headerNumRanges (b.take (4 + 4 * headerNumRanges b)) = headerNumRanges b := by
      have := headerNumRanges_append (b.take (4 + 4 * headerNumRanges b))
        (b.drop (4 + 4 * headerNumRanges b)) (by omega)
      rw [hsplit] at this
      exact this.symm
    have hok := Parse_of_complete v0 (b.take (4 + 4 * headerNumRanges b))
      (by rw [hnum, hlen])
    have := Parse_append v0 _ (b.drop (4 + 4 * headerNumRanges b)) hok
    rw [hsplit] at this
    exact this

/-- C19: trailing bytes are ignored. When `Parse`, run on a fresh object over
`b`, returns success or Drop, then over `b` followed by any bytes `e` it
returns the same outcome and leaves the same object; and over any input `b` it
returns and leaves what it does over the first `4 + 4 * numRanges` bytes
of `b`. -/
theorem Parse_ignores_trailing_bytes (v0 : Nat) (b e : List Byte)
    (h : ((OpenTypeGASP.fresh v0).Parse b).1 = Outcome.success ∨
      ((OpenTypeGASP.fresh v0).Parse b).1.isDrop) :
    (OpenTypeGASP.fresh v0).Parse (b ++ e) = (OpenTypeGASP.fresh v0).Parse b ∧
      (OpenTypeGASP.fresh v0).Parse b =
        (OpenTypeGASP.fresh v0).Parse (b.take (4 + 4 * headerNumRanges b)) :=
  ⟨Parse_append v0 b e h, Parse_take v0 b⟩

/-- Witness of C19: a table of one range followed by three stray bytes. -/
theorem Parse_ignores_trailing_bytes_witness :
    (OpenTypeGASP.fresh 0).Parse ([0, 0, 0, 1, 0xFF, 0xFF, 0, 3] ++ [9, 9, 9]) =
        (OpenTypeGASP.fresh 0).Parse [0, 0, 0, 1, 0xFF, 0xFF, 0, 3] ∧
      (OpenTypeGASP.fresh 0).Parse [0, 0, 0, 1, 0xFF, 0xFF, 0, 3] =
        (OpenTypeGASP.fresh 0).Parse
          (([0, 0, 0, 1, 0xFF, 0xFF, 0, 3] : List Byte).take
            (4 + 4 * headerNumRanges [0, 0, 0, 1, 0xFF, 0xFF, 0, 3])) :=
  Parse_ignores_trailing_bytes 0 [0, 0, 0, 1, 0xFF, 0xFF, 0, 3] [9, 9, 9]
    (Or.inl (by decide))

/-! ## Index safety of the parsing loop -/

/-- The step function is the body of the loop: one more iteration of
`ParseLoop` is one run of `ParseBody`. -/
theorem ParseLoop_eq_ParseBody (n todo i : Nat) (table : Buffer) (self : OpenTypeGASP) :
    OpenTypeGASP.ParseLoop n (todo + 1) i table self =
      match OpenTypeGASP.ParseBody n i table self with
      | Step.leave outcome => (outcome, self)
      | Step.next table self => OpenTypeGASP.ParseLoop n todo (i + 1) table self := by
  rw [OpenTypeGASP.ParseLoop]
  unfold OpenTypeGASP.ParseBody
  cases h1 : table.ReadU16 with
  | none => rfl
  | some r1 =>
    obtain ⟨max_ppem, table1⟩ := r1
    simp only
    cases h2 : table1.ReadU16 with
    | none => rfl
    | some r2 =>
      obtain ⟨behavior, table2⟩ := r2
      simp only
      split_ifs <;> rfl

theorem ParseBody_next_length (n i : Nat) (table table1 : Buffer) (self self1 : OpenTypeGASP)
    (h : OpenTypeGASP.ParseBody n i table self = Step.next table1 self1) :
    self1.gasp_ranges.length = self.gasp_ranges.length + 1 := by
  unfold OpenTypeGASP.ParseBody at h
  cases h1 : table.ReadU16 with
  | none => rw [h1] at h; exact absurd h (by simp)
  | some r1 =>
    obtain ⟨max_ppem, table2⟩ := r1
    rw [h1] at h
    simp only at h
    cases h2 : table2.ReadU16 with
    | none => rw [h2] at h; exact absurd h (by simp)
    | some r2 =>
      obtain ⟨behavior, table3⟩ := r2
      rw [h2] at h
      simp only at h
      split_ifs at h
      all_goals
        simp only [Step.next.injEq] at h
        rw [← h.2]
        simp

theorem ParseLoopStarts_inv (n : Nat) :
    ∀ todo i table self, self.gasp_ranges.length = i → i + todo = n →
      ∀ s ∈ OpenTypeGASP.ParseLoopStarts n todo i table self,
        s.num_ranges = n ∧ s.self.gasp_ranges.length = s.i ∧ s.i < n := by
  intro todo
  induction todo with
  | zero =>
    intro i table self _ _ s hs
    simp [OpenTypeGASP.ParseLoopStarts] at hs
  | succ todo ih =>
    intro i table self hlen hi s hs
    rw [OpenTypeGASP.ParseLoopStarts] at hs
    rcases List.mem_cons.mp hs with rfl | hs
    · exact ⟨rfl, hlen, by simp only; omega⟩
    · cases hb : OpenTypeGASP.ParseBody n i table self with
      | leave outcome =>
        rw [hb] at hs
        simp at hs
      | next table1 self1 =>
        rw [hb] at hs
        simp only at hs
        have hlen1 := ParseBody_next_length n i table table1 self self1 hb
        exact ih (i + 1) table1 self1 (by omega) (by omega) s hs

theorem ParseStarts_fresh (v0 : Nat) (data : List Byte) :
    (OpenTypeGASP.fresh v0).ParseStarts data =
      if 4 ≤ data.length ∧ headerVersion data ≤ 1 ∧ headerNumRanges data ≠ 0 then
        OpenTypeGASP.ParseLoopStarts (headerNumRanges data) (headerNumRanges data) 0
          ⟨data, 4⟩ ⟨headerVersion data, []⟩
      else [] := by
  unfold OpenTypeGASP.ParseStarts
  by_cases hlen : 4 ≤ data.length
  · simp only
    rw [ReadU16_of_le _ _ (by omega)]
    simp only
    rw [ReadU16_of_le _ _ (by omega)]
    simp only [OpenTypeGASP.fresh]
    by_cases hv : headerVersion data ≤ 1
    · by_cases hn : headerNumRanges data = 0
      · rw [if_neg (by unfold headerVersion at hv; omega),
          if_pos (by unfold headerNumRanges at hn; exact hn), if_neg (by tauto)]
      · rw [if_neg (by unfold headerVersion at hv; omega),
          if_neg (by unfold headerNumRanges at hn; exact hn), if_pos ⟨hlen, hv, hn⟩]
        rfl
    · rw [if_pos (by unfold headerVersion at hv; omega), if_neg (by tauto)]
  · rw [if_neg (by tauto)]
    by_cases h2 : 0 + 2 ≤ data.length
    · simp only
      rw [ReadU16_of_le _ _ h2]
      simp only
      rw [ReadU16_of_lt _ _ (by omega)]
    · simp only
      rw [ReadU16_of_lt _ _ (by omega)]

/-- C20: index safety of the loop of `Parse` on a fresh object. At the start
of every iteration that a run of `Parse` begins, the index `i` is below
`num_ranges`, the vector holds exactly `i` ranges, so that the element
`i - 1` read when `i > 0` exists, and `num_ranges` is at least 1, so that
`num_ranges - 1u` does not wrap; and `Parse` never ends in an access out of
range. -/
theorem Parse_index_safe (v0 : Nat) (data : List Byte) :
    (∀ s ∈ (OpenTypeGASP.fresh v0).ParseStarts data,
        s.i < s.num_ranges ∧
          s.self.gasp_ranges.length = s.i ∧
          (0 < s.i → s.self.gasp_ranges[s.i - 1]?.isSome = true) ∧
          1 ≤ s.num_ranges ∧
          (s.num_ranges + 4294967296 - 1) % 4294967296 + 1 = s.num_ranges) ∧
      ((OpenTypeGASP.fresh v0).Parse data).1 ≠ Outcome.outOfBounds := by
  refine ⟨?_, Parse_ne_outOfBounds v0 data⟩
  intro s hs
  rw [ParseStarts_fresh] at hs
  by_cases hc : 4 ≤ data.length ∧ headerVersion data ≤ 1 ∧ headerNumRanges data ≠ 0
  · rw [if_pos hc] at hs
    obtain ⟨hnum, hlen, hlt⟩ := ParseLoopStarts_inv (headerNumRanges data)
      (headerNumRanges data) 0 ⟨data, 4⟩ ⟨headerVersion data, []⟩ rfl (by omega) s hs
    have h16 : headerNumRanges data < 65536 := u16At_lt data 2
    refine ⟨by omega, hlen, ?_, by omega, by omega⟩
    intro hpos
    rw [List.getElem?_eq_getElem (show s.i - 1 < s.self.gasp_ranges.length by omega)]
    rfl
  · rw [if_neg hc] at hs
    exact absurd hs (List.not_mem_nil s)

/-- Witness of C20: the second iteration over a table of two ranges starts
with one range stored. -/
theorem Parse_index_safe_witness :
    (OpenTypeGASP.fresh 0).ParseStarts [0, 0, 0, 2, 0, 10, 0, 1, 0xFF, 0xFF, 0, 3] =
        [{ num_ranges := 2, i := 0, self := { version := 0, gasp_ranges := [] } },
          { num_ranges := 2, i := 1, self := { version := 0, gasp_ranges := [(10, 1)] } }] ∧
      ((1 : Nat) < 2 ∧
        ([(10, 1)] : List (Nat × Nat)).length = 1 ∧
        ((0 : Nat) < 1 → ([(10, 1)] : List (Nat × Nat))[1 - 1]?.isSome = true) ∧
        1 ≤ 2 ∧
        (2 + 4294967296 - 1) % 4294967296 + 1 = 2) :=
  ⟨by decide,
    (Parse_index_safe 0 [0, 0, 0, 2, 0, 10, 0, 1, 0xFF, 0xFF, 0, 3]).1
      { num_ranges := 2, i := 1, self := { version := 0, gasp_ranges := [(10, 1)] } }
      (by decide)⟩

end ots
